/-
Verification of the extraction-with-confidence-scoring core of
RecipeImporter (src/lambda_function.py), as a shallow embedding in Lean 4.

Python floats are modelled as rationals; the decimal constants of the
source are exactly representable.  Python dicts are modelled as
association lists that keep insertion order, where updating an existing
key keeps its position, which matches the dict semantics the source
relies on.  `round(x, 2)` is modelled as rounding half up at the second
decimal place; the claims under study never hit an exact tie, so the
bankers-rounding corner of the float built-in is not load bearing.
-/
import Mathlib

section RecipeImporter

attribute [local semireducible] Rat.mul Rat.inv Rat.add Rat.sub

/-! ## Python dict primitives -/

/-- Lookup in a Python-style dict: the value of the first binding of key
`k`, if any (`d.get(k)` / `d[k]`). -/
def dget {α : Type} (d : List (String × α)) (k : String) : Option α :=
  match d with
  | [] => none
  | (k1, v) :: rest => if k1 = k then some v else dget rest k

/-- Update in a Python-style dict (`d[k] = v`): an existing key keeps its
position, a new key is appended at the end. -/
def dset {α : Type} (d : List (String × α)) (k : String) (v : α) : List (String × α) :=
  match d with
  | [] => [(k, v)]
  | (k1, v1) :: rest => if k1 = k then (k1, v) :: rest else (k1, v1) :: dset rest k v

/-! ## Values -/

/-- The Python values that occur in the recipe records built by
`lambda_function.py`: strings, numbers, lists, and string-valued dicts
(`parsing_methods`, `nutrients`).  Numbers are modelled as rationals. -/
inductive PyVal : Type where
  | str (s : String)
  | num (q : ℚ)
  | vlist (xs : List PyVal)
  | vdict (m : List (String × String))

/-- Python truthiness of a `PyVal` (`if value:`). -/
def PyVal.truthy : PyVal → Bool
  | .str s => s != ""
  | .num q => q != 0
  | .vlist xs => !xs.isEmpty
  | .vdict m => !m.isEmpty

/-- A recipe record, i.e. the `recipe_data` dict of the source. -/
abbrev RecipeData := List (String × PyVal)

/-! ## `calculate_confidence_score` (src/lambda_function.py lines 277-342) -/

/-- Weights of the required fields (lines 302-306). -/
def required_weights : List (String × ℚ) :=
  [("title", 20/100), ("ingredients", 25/100), ("instructions", 25/100)]

/-- Weights of the optional fields (lines 309-316). -/
def optional_weights : List (String × ℚ) :=
  [("image", 10/100), ("total_time", 5/100), ("yields", 5/100),
   ("cuisine", 25/1000), ("category", 25/1000), ("nutrients", 5/100)]

/-- Source quality multipliers (lines 319-326). -/
def source_multipliers : List (String × ℚ) :=
  [("schema.org", 1), ("json-ld", 9/10), ("wild_mode", 7/10), ("llm", 5/10),
   ("NOT_FOUND", 0), ("ERROR", 0)]

/-- Python `round(q, 2)` of the source, modelled on rationals. -/
def round2 (q : ℚ) : ℚ := ((Rat.floor (q * 100 + 1/2) : ℤ) : ℚ) / 100

/-- Lookup `recipe_data.get("parsing_methods", ...)` with empty-dict default; in
every record the source builds, the value under this key is a dict. -/
def pmDict (rd : RecipeData) : List (String × String) :=
  match dget rd "parsing_methods" with
  | some (.vdict m) => m
  | _ => []

/-- The loop body of the scoring loops (lines 329-340): the contribution
of one weighted field.  A present truthy field contributes its weight
times the multiplier of its provenance tag, the tag defaulting to
`ERROR` when the field has no provenance entry and the multiplier
defaulting to `0.5` for a tag outside the table. -/
def fieldScore (rd : RecipeData) (pm : List (String × String)) (fw : String × ℚ) : ℚ :=
  match dget rd fw.1 with
  | some v =>
    if v.truthy then
      fw.2 * ((dget source_multipliers ((dget pm fw.1).getD "ERROR")).getD (1/2))
    else 0
  | none => 0

/-- Function `calculate_confidence_score` (lines 277-342): weighted sum over the
required fields and then the optional fields, rounded to 2 decimals. -/
def calculate_confidence_score (rd : RecipeData) : ℚ :=
  let pm := pmDict rd
  round2 ((required_weights.map (fieldScore rd pm)).sum
    + (optional_weights.map (fieldScore rd pm)).sum)

/-! ## Basic dict lemmas -/

theorem dget_mem {α : Type} {d : List (String × α)} {k : String} {v : α}
    (h : dget d k = some v) : (k, v) ∈ d := by
  induction d with
  | nil => simp [dget] at h
  | cons p rest ih =>
    obtain ⟨k1, v1⟩ := p
    simp only [dget] at h
    split at h
    · next heq =>
      injection h with h2
      subst heq; subst h2
      exact List.mem_cons_self _ _
    · exact List.mem_cons_of_mem _ (ih h)

theorem dget_dset_self {α : Type} (d : List (String × α)) (k : String) (v : α) :
    dget (dset d k v) k = some v := by
  induction d with
  | nil => simp [dget, dset]
  | cons p rest ih =>
    obtain ⟨k1, v1⟩ := p
    by_cases h : k1 = k <;> simp [dget, dset, h, ih]

theorem dget_dset_ne {α : Type} (d : List (String × α)) (k k' : String) (v : α)
    (h : k' ≠ k) : dget (dset d k v) k' = dget d k' := by
  induction d with
  | nil => simp [dget, dset, Ne.symm h]
  | cons p rest ih =>
    obtain ⟨k1, v1⟩ := p
    by_cases h1 : k1 = k <;> by_cases h2 : k1 = k' <;>
      simp_all [dget, dset]

theorem dset_ne_nil {α : Type} (d : List (String × α)) (k : String) (v : α) :
    dset d k v ≠ [] := by
  cases d with
  | nil => simp [dset]
  | cons p rest =>
    obtain ⟨k1, v1⟩ := p
    by_cases h : k1 = k <;> simp [dset, h]

/-! ## Bounds for the scorer -/

theorem multiplier_bounds (s : String) :
    0 ≤ (dget source_multipliers s).getD (1/2)
      ∧ (dget source_multipliers s).getD (1/2) ≤ 1 := by
  cases h : dget source_multipliers s with
  | none => norm_num
  | some v =>
    have hv := dget_mem h
    have hall : ∀ p ∈ source_multipliers, 0 ≤ p.2 ∧ p.2 ≤ 1 := by decide
    simpa using hall _ hv

theorem fieldScore_nonneg (rd : RecipeData) (pm : List (String × String))
    (fw : String × ℚ) (hw : 0 ≤ fw.2) : 0 ≤ fieldScore rd pm fw := by
  unfold fieldScore
  split
  · split
    · exact mul_nonneg hw (multiplier_bounds _).1
    · exact le_refl 0
  · exact le_refl 0

theorem fieldScore_le_weight (rd : RecipeData) (pm : List (String × String))
    (fw : String × ℚ) (hw : 0 ≤ fw.2) : fieldScore rd pm fw ≤ fw.2 := by
  unfold fieldScore
  split
  · split
    · exact mul_le_of_le_one_right hw (multiplier_bounds _).2
    · exact hw
  · exact hw

theorem ratFloor_eq_intFloor (q : ℚ) : (Rat.floor q : ℤ) = ⌊q⌋ := by
  rw [Rat.floor_def', Rat.floor_def]

theorem round2_nonneg (q : ℚ) (h : 0 ≤ q) : 0 ≤ round2 q := by
  unfold round2
  rw [ratFloor_eq_intFloor]
  have h1 : (0 : ℤ) ≤ ⌊q * 100 + 1/2⌋ := by
    rw [Int.le_floor]
    push_cast
    nlinarith
  positivity

theorem round2_le_one (q : ℚ) (h : q ≤ 1) : round2 q ≤ 1 := by
  unfold round2
  rw [ratFloor_eq_intFloor]
  have h1 : ⌊q * 100 + 1/2⌋ ≤ 100 := by
    have h2 : ⌊q * 100 + 1/2⌋ ≤ ⌊(201 : ℚ)/2⌋ := Int.floor_le_floor (by nlinarith)
    have h3 : ⌊(201 : ℚ)/2⌋ = 100 := by
      rw [Int.floor_eq_iff]
      norm_num
    omega
  rw [div_le_one (by norm_num)]
  exact_mod_cast h1

theorem round2_div_100 (n : ℤ) : round2 ((n : ℚ)/100) = (n : ℚ)/100 := by
  unfold round2
  rw [ratFloor_eq_intFloor]
  have h1 : (n : ℚ)/100 * 100 + 1/2 = (n : ℚ) + 1/2 := by ring
  rw [h1]
  have h2 : ⌊(n : ℚ) + 1/2⌋ = n := by
    rw [Int.floor_eq_iff]
    constructor
    · linarith
    · linarith
  rw [h2]

theorem round2_idem (q : ℚ) : round2 (round2 q) = round2 q := by
  have h : round2 q = ((Rat.floor (q * 100 + 1/2) : ℤ) : ℚ)/100 := rfl
  rw [h, round2_div_100]

/-- Claim C1: for every recipe record, `calculate_confidence_score`
returns a value in the closed interval `[0, 1]` that is already rounded
to 2 decimal places (it is a fixed point of rounding at 2 decimals).
Determinism and absence of side effects hold by construction: the
embedding is a pure function of the record, which contains the
provenance map. -/
theorem calculate_confidence_score_range_and_rounded (rd : RecipeData) :
    0 ≤ calculate_confidence_score rd ∧ calculate_confidence_score rd ≤ 1 ∧
      round2 (calculate_confidence_score rd) = calculate_confidence_score rd := by
  unfold calculate_confidence_score
  set pm := pmDict rd
  have hwr : ∀ fw ∈ required_weights, (0 : ℚ) ≤ fw.2 := by decide
  have hwo : ∀ fw ∈ optional_weights, (0 : ℚ) ≤ fw.2 := by decide
  have hs1 : (0 : ℚ) ≤ (required_weights.map (fieldScore rd pm)).sum :=
    List.sum_nonneg (by
      intro x hx
      obtain ⟨fw, hfw, rfl⟩ := List.mem_map.1 hx
      exact fieldScore_nonneg rd pm fw (hwr fw hfw))
  have hs2 : (0 : ℚ) ≤ (optional_weights.map (fieldScore rd pm)).sum :=
    List.sum_nonneg (by
      intro x hx
      obtain ⟨fw, hfw, rfl⟩ := List.mem_map.1 hx
      exact fieldScore_nonneg rd pm fw (hwo fw hfw))
  have hb1 : (required_weights.map (fieldScore rd pm)).sum
      ≤ (required_weights.map (fun fw => fw.2)).sum :=
    List.sum_le_sum (fun fw hfw => fieldScore_le_weight rd pm fw (hwr fw hfw))
  have hb2 : (optional_weights.map (fieldScore rd pm)).sum
      ≤ (optional_weights.map (fun fw => fw.2)).sum :=
    List.sum_le_sum (fun fw hfw => fieldScore_le_weight rd pm fw (hwo fw hfw))
  have ht1 : (required_weights.map (fun fw => fw.2)).sum = (70 : ℚ)/100 := by
    norm_num [required_weights]
  have ht2 : (optional_weights.map (fun fw => fw.2)).sum = (30 : ℚ)/100 := by
    norm_num [optional_weights]
  refine ⟨round2_nonneg _ (by linarith), round2_le_one _ ?_, round2_idem _⟩
  rw [ht1] at hb1
  rw [ht2] at hb2
  linarith

/-! ## Boundary behaviour of the scorer (claims C9 and C10) -/

/-- Claim C9, counterexample: a record whose `instructions` value is a
list containing only a whitespace string is NOT treated as absent by
`calculate_confidence_score`: a non-empty Python list is truthy, so the
instructions weight contributes fully (score 0.25, not 0). -/
theorem whitespace_instructions_scored_counterexample :
    calculate_confidence_score
      [("instructions", PyVal.vlist [PyVal.str " "]),
       ("parsing_methods", PyVal.vdict [("instructions", "schema.org")])] = 1/4 ∧
    (1/4 : ℚ) ≠ 0 := by
  constructor
  · decide
  · norm_num

/-- Claim C9 as amended: an empty `instructions` list fails the truthy
check and contributes 0 to the score, but a non-empty list, even one
containing only whitespace strings, is truthy and contributes its weight
times the multiplier of its provenance tag (the source never strips the
strings inside the list). -/
theorem instructions_scoring_amended (rd : RecipeData) (pm : List (String × String)) :
    (dget rd "instructions" = some (.vlist []) →
       fieldScore rd pm ("instructions", 25/100) = 0) ∧
    (∀ ws : List PyVal, ws ≠ [] → dget rd "instructions" = some (.vlist ws) →
       fieldScore rd pm ("instructions", 25/100)
         = 25/100 * ((dget source_multipliers
             ((dget pm "instructions").getD "ERROR")).getD (1/2))) := by
  constructor
  · intro h
    simp [fieldScore, h, PyVal.truthy]
  · intro ws hws h
    simp [fieldScore, h, PyVal.truthy, hws]

theorem instructions_scoring_amended_witness :
    fieldScore [("instructions", PyVal.vlist [])] [] ("instructions", 25/100) = 0 ∧
    fieldScore [("instructions", PyVal.vlist [PyVal.str " "])]
        [("instructions", "schema.org")] ("instructions", 25/100)
      = 25/100 * ((dget source_multipliers
          ((dget [("instructions", "schema.org")] "instructions").getD "ERROR")).getD (1/2)) :=
  ⟨(instructions_scoring_amended [("instructions", PyVal.vlist [])] []).1 rfl,
   (instructions_scoring_amended [("instructions", PyVal.vlist [PyVal.str " "])]
      [("instructions", "schema.org")]).2 [PyVal.str " "] (by simp) rfl⟩

/-- Claim C10: in `calculate_confidence_score`, a truthy field with no
provenance entry at all defaults to the `ERROR` tag and contributes 0,
while a field whose provenance entry carries a tag outside the
multiplier table contributes its weight times `0.5`; the two cases are
scored differently because every weight is non-zero. -/
theorem missing_provenance_vs_unknown_tag (f : String) (w : ℚ)
    (hmem : (f, w) ∈ required_weights ++ optional_weights)
    (rd : RecipeData) (pm : List (String × String)) (v : PyVal)
    (hv : dget rd f = some v) (ht : v.truthy = true) :
    (dget pm f = none → fieldScore rd pm (f, w) = 0) ∧
    (∀ tag, dget pm f = some tag → dget source_multipliers tag = none →
       fieldScore rd pm (f, w) = w * (1/2)) ∧
    w * (1/2) ≠ 0 := by
  refine ⟨?_, ?_, ?_⟩
  · intro hn
    simp only [fieldScore, hv, ht, if_true, hn, Option.getD_none]
    rw [show (dget source_multipliers "ERROR").getD (1/2) = 0 from by decide]
    exact mul_zero w
  · intro tag htag hunk
    simp only [fieldScore, hv, ht, if_true, htag, Option.getD_some, hunk, Option.getD_none]
  · have hall : ∀ fw ∈ required_weights ++ optional_weights, ¬(fw.2 = 0) := by decide
    exact mul_ne_zero (hall (f, w) hmem) (by norm_num)

theorem missing_provenance_vs_unknown_tag_witness :
    ("title", (20 : ℚ)/100) ∈ required_weights ++ optional_weights ∧
    fieldScore [("title", PyVal.str "T")] [] ("title", 20/100) = 0 ∧
    fieldScore [("title", PyVal.str "T")] [("title", "bogus")] ("title", 20/100)
      = 20/100 * (1/2) := by
  refine ⟨by decide, ?_, ?_⟩
  · exact (missing_provenance_vs_unknown_tag "title" (20/100) (by decide)
      [("title", PyVal.str "T")] [] (PyVal.str "T") rfl rfl).1 rfl
  · exact (missing_provenance_vs_unknown_tag "title" (20/100) (by decide)
      [("title", PyVal.str "T")] [("title", "bogus")] (PyVal.str "T") rfl rfl).2.1
      "bogus" rfl (by decide)

/-! ## The scraper-backed strategies (lines 344-470) -/

/-- The recipe-scrapers object bound to a URL, as the source sees it: a
host plus one extraction method per field, each either returning a value
or raising.  The network and markup behaviour behind it is an oracle
parameter of the embedding. -/
structure Scraper where
  host : String
  title : Except String PyVal
  ingredients : Except String PyVal
  instructions : Except String PyVal
  total_time : Except String PyVal
  yields : Except String PyVal
  image : Except String PyVal
  nutrients : Except String PyVal
  cuisine : Except String PyVal
  category : Except String PyVal

/-- Dispatch from a field name to the scraper method of that field. -/
def Scraper.get (sc : Scraper) (f : String) : Except String PyVal :=
  if f = "title" then sc.title
  else if f = "ingredients" then sc.ingredients
  else if f = "instructions" then sc.instructions
  else if f = "total_time" then sc.total_time
  else if f = "yields" then sc.yields
  else if f = "image" then sc.image
  else if f = "nutrients" then sc.nutrients
  else if f = "cuisine" then sc.cuisine
  else sc.category

/-- The required field set of `try_standard_scraping` (lines 362-366). -/
def requiredFieldNames : List String := ["title", "ingredients", "instructions"]

/-- The optional field set of `try_standard_scraping` (lines 369-376). -/
def optionalFieldNames : List String :=
  ["total_time", "yields", "image", "nutrients", "cuisine", "category"]

/-- The field set of `try_wild_mode_scraping` (lines 441-451), which is
also the set of recipe content fields. -/
def wildFieldNames : List String := requiredFieldNames ++ optionalFieldNames

/-- One iteration of the required-fields loop of `try_standard_scraping`
(lines 380-390), acting on (record, provenance, missing_required): a
truthy value fills the field and tags it `schema.org`; a falsy value or
a raise appends the field to `missing_required`. -/
def standardRequiredStep (sc : Scraper)
    (acc : RecipeData × List (String × String) × List String) (f : String) :
    RecipeData × List (String × String) × List String :=
  match sc.get f with
  | .ok v =>
    if v.truthy then (dset acc.1 f v, dset acc.2.1 f "schema.org", acc.2.2)
    else (acc.1, acc.2.1, acc.2.2 ++ [f])
  | .error _ => (acc.1, acc.2.1, acc.2.2 ++ [f])

/-- One iteration of the optional-fields loop (lines 393-403): truthy
fills and tags `schema.org`, falsy tags `NOT_FOUND`, a raise tags
`ERROR`. -/
def standardOptionalStep (sc : Scraper) (acc : RecipeData × List (String × String))
    (f : String) : RecipeData × List (String × String) :=
  match sc.get f with
  | .ok v =>
    if v.truthy then (dset acc.1 f v, dset acc.2 f "schema.org")
    else (acc.1, dset acc.2 f "NOT_FOUND")
  | .error _ => (acc.1, dset acc.2 f "ERROR")

/-- The record skeleton built at the top of each strategy (lines
353-359, 432-438, 517-522): `url`, `host`, the provenance dict and the
timestamp, followed by the extracted fields in insertion order. -/
def assembleRecord (url host ts : String) (pm : List (String × String))
    (fields : RecipeData) : RecipeData :=
  [("url", PyVal.str url), ("host", PyVal.str host),
   ("parsing_methods", PyVal.vdict pm), ("parse_timestamp", PyVal.str ts)] ++ fields

/-- Strategy `try_standard_scraping` (lines 344-417).  The `scrape_me` call is the
oracle argument; when it raises, the whole strategy returns `None`.  The
record is assembled in the insertion order of the source: `url`, `host`,
`parsing_methods`, `parse_timestamp`, the extracted fields, then
`confidence_score` and, when required fields failed, `missing_required`. -/
def try_standard_scraping (scrapeRes : Except String Scraper) (url ts : String) :
    Option RecipeData :=
  match scrapeRes with
  | .error _ => none
  | .ok sc =>
    let req := requiredFieldNames.foldl (standardRequiredStep sc) ([], [], [])
    let opt := optionalFieldNames.foldl (standardOptionalStep sc) (req.1, req.2.1)
    let missing := req.2.2
    let rd := assembleRecord url sc.host ts opt.2 opt.1
    let rd1 := dset rd "confidence_score" (PyVal.num (calculate_confidence_score rd))
    some (if missing.isEmpty then rd1
      else dset rd1 "missing_required" (PyVal.vlist (missing.map PyVal.str)))

/-- One iteration of the wild-mode loop (lines 453-461): truthy fills
and tags `wild_mode`; a raise tags `NOT_FOUND`; a falsy value without a
raise leaves both the record and the provenance map untouched. -/
def wildStep (sc : Scraper) (acc : RecipeData × List (String × String)) (f : String) :
    RecipeData × List (String × String) :=
  match sc.get f with
  | .ok v => if v.truthy then (dset acc.1 f v, dset acc.2 f "wild_mode") else acc
  | .error _ => (acc.1, dset acc.2 f "NOT_FOUND")

/-- Strategy `try_wild_mode_scraping` (lines 419-470): same scraper oracle with
the heuristic mode flag set; every per-field failure is caught inside
the loop, so the strategy itself never raises once the scraper object
exists. -/
def try_wild_mode_scraping (scrapeRes : Except String Scraper) (url ts : String) :
    Option RecipeData :=
  match scrapeRes with
  | .error _ => none
  | .ok sc =>
    let acc := wildFieldNames.foldl (wildStep sc) ([], [])
    let rd := assembleRecord url sc.host ts acc.2 acc.1
    some (dset rd "confidence_score" (PyVal.num (calculate_confidence_score rd)))

/-! ## `process_recipe_schema` (lines 513-583) -/

/-- Assignment `recipe_data["parsing_methods"][f] = tag` in the contexts where the
provenance map is the dict the function itself created (the strategy
constructors); the orchestrator merge uses the raising variant below. -/
def pmTag (rd : RecipeData) (f tag : String) : RecipeData :=
  dset rd "parsing_methods" (PyVal.vdict (dset (pmDict rd) f tag))

/-- Python iteration over a value: lists yield their elements, strings
yield their characters as one-character strings, dicts yield their keys;
numbers are not iterable and raise. -/
def pyIter : PyVal → Except String (List PyVal)
  | .str s => .ok (s.data.map (fun c => PyVal.str (String.singleton c)))
  | .num _ => .error "TypeError: not iterable"
  | .vlist xs => .ok xs
  | .vdict m => .ok (m.map (fun p => PyVal.str p.1))

/-- The body of the instruction-collection loop (lines 536-540): keep
plain strings, and the `text` member of dict-shaped steps. -/
def instructionStep (acc : List PyVal) (instruction : PyVal) : List PyVal :=
  match instruction with
  | .str s => acc ++ [PyVal.str s]
  | .vdict m =>
    match dget m "text" with
    | some t => acc ++ [PyVal.str t]
    | none => acc
  | _ => acc

/-- Lines 525-531: map `name` / `recipeYield` / `recipeCuisine` /
`recipeCategory` style keys straight into a record field tagged
`json-ld`. -/
def mapSimpleField (item : List (String × PyVal)) (srcKey dstKey : String)
    (rd : RecipeData) : RecipeData :=
  match dget item srcKey with
  | some v => pmTag (dset rd dstKey v) dstKey "json-ld"
  | none => rd

/-- Lines 533-542: collect string instructions, falling back to the raw
`recipeInstructions` value when nothing string-like was found.
Iterating a non-iterable value raises. -/
def mapInstructionsField (item : List (String × PyVal)) (rd : RecipeData) :
    Except String RecipeData :=
  match dget item "recipeInstructions" with
  | some v =>
    match pyIter v with
    | .error e => .error e
    | .ok elems =>
      let instrs := elems.foldl instructionStep []
      let stored := if instrs.isEmpty then v else PyVal.vlist instrs
      .ok (pmTag (dset rd "instructions" stored) "instructions" "json-ld")
  | none => .ok rd

/-- Lines 545-547: `item["image"][0]` when the value is a list (raising
on an empty list), the value itself otherwise. -/
def mapImageField (item : List (String × PyVal)) (rd : RecipeData) :
    Except String RecipeData :=
  match dget item "image" with
  | some v =>
    match v with
    | .vlist [] => .error "IndexError: list index out of range"
    | .vlist (x :: _) => .ok (pmTag (dset rd "image" x) "image" "json-ld")
    | other => .ok (pmTag (dset rd "image" other) "image" "json-ld")
  | none => .ok rd

/-- Lines 549-557: ISO-8601 duration to minutes; a parse failure is
caught and only logged, leaving the record untouched.  `parseDur` stands
for `isodate.parse_duration(...).total_seconds()`. -/
def mapTotalTimeField (parseDur : PyVal → Except String ℚ)
    (item : List (String × PyVal)) (rd : RecipeData) : RecipeData :=
  match dget item "totalTime" with
  | some v =>
    match parseDur v with
    | .ok secs => pmTag (dset rd "total_time" (PyVal.num (secs / 60))) "total_time" "json-ld"
    | .error _ => rd
  | none => rd

/-- Lines 571-578: keep the `*Content` members of the nutrition dict,
stripping the `Content` suffix from the keys; calling `.items()` on a
non-dict value raises. -/
def mapNutritionField (item : List (String × PyVal)) (rd : RecipeData) :
    Except String RecipeData :=
  match dget item "nutrition" with
  | some v =>
    match v with
    | .vdict m =>
      let nutrients := (m.filter (fun p => p.1.endsWith "Content")).foldl
        (fun acc p => dset acc (p.1.replace "Content" "") p.2) []
      .ok (pmTag (dset rd "nutrients" (PyVal.vdict nutrients)) "nutrients" "json-ld")
    | _ => .error "AttributeError: items"
  | none => .ok rd

/-- Function `process_recipe_schema` (lines 513-583).  `netloc` stands for
`urlparse(url).netloc`, a pure function of the url evaluated by the
caller of the embedding.  An uncaught error propagates to the caller
(`extract_json_ld`), which catches it and reports no data. -/
def process_recipe_schema (parseDur : PyVal → Except String ℚ)
    (item : List (String × PyVal)) (url netloc ts : String) :
    Except String RecipeData :=
  let rd0 := assembleRecord url netloc ts [] []
  let rd1 := mapSimpleField item "name" "title" rd0
  let rd2 := mapSimpleField item "recipeIngredient" "ingredients" rd1
  match mapInstructionsField item rd2 with
  | .error e => .error e
  | .ok rd3 =>
    match mapImageField item rd3 with
    | .error e => .error e
    | .ok rd4 =>
      let rd5 := mapTotalTimeField parseDur item rd4
      let rd6 := mapSimpleField item "recipeYield" "yields" rd5
      let rd7 := mapSimpleField item "recipeCuisine" "cuisine" rd6
      let rd8 := mapSimpleField item "recipeCategory" "category" rd7
      match mapNutritionField item rd8 with
      | .error e => .error e
      | .ok rd9 =>
        .ok (dset rd9 "confidence_score" (PyVal.num (calculate_confidence_score rd9)))

/-! ## Further dict and fold lemmas -/

theorem dget_append {α : Type} (a b : List (String × α)) (k : String) :
    dget (a ++ b) k = match dget a k with | some v => some v | none => dget b k := by
  induction a with
  | nil => simp [dget]
  | cons p rest ih =>
    obtain ⟨k1, v1⟩ := p
    by_cases h : k1 = k <;> simp [dget, h, ih]

theorem dget_dset_isSome {α : Type} (d : List (String × α)) (k f : String) (v : α)
    (h : (dget d f).isSome) : (dget (dset d k v) f).isSome := by
  by_cases hf : f = k
  · subst hf
    rw [dget_dset_self]
    rfl
  · rw [dget_dset_ne _ _ _ _ hf]
    exact h

theorem foldl_preserves {α β : Type} (P : β → Prop) (step : β → α → β)
    (hstep : ∀ b a, P b → P (step b a)) :
    ∀ (l : List α) (b : β), P b → P (l.foldl step b)
  | [], _, hb => hb
  | a :: l, b, hb => foldl_preserves P step hstep l (step b a) (hstep b a hb)

theorem pmDict_pmTag (rd : RecipeData) (f tag : String) :
    pmDict (pmTag rd f tag) = dset (pmDict rd) f tag := by
  unfold pmTag pmDict
  rw [dget_dset_self]

theorem dget_pmTag_ne (rd : RecipeData) (f g tag : String) (h : g ≠ "parsing_methods") :
    dget (pmTag rd f tag) g = dget rd g := by
  unfold pmTag
  exact dget_dset_ne _ _ _ _ h

theorem pmDict_dset_other (rd : RecipeData) (k : String) (v : PyVal)
    (h : k ≠ "parsing_methods") : pmDict (dset rd k v) = pmDict rd := by
  unfold pmDict
  rw [dget_dset_ne _ _ _ _ (Ne.symm h)]

/-- The recipe content field names avoid all the bookkeeping keys. -/
theorem wildFieldNames_ne_special :
    ∀ f ∈ wildFieldNames, f ≠ "url" ∧ f ≠ "host" ∧ f ≠ "parsing_methods" ∧
      f ≠ "parse_timestamp" ∧ f ≠ "confidence_score" ∧ f ≠ "missing_required" := by
  decide

/-! ## Wild-mode provenance characterisation (claim C8) -/

theorem wild_fold_frame (sc : Scraper) (f : String) :
    ∀ (l : List String), f ∉ l → ∀ acc : RecipeData × List (String × String),
      dget (l.foldl (wildStep sc) acc).2 f = dget acc.2 f := by
  intro l
  induction l with
  | nil =>
    intro _ acc
    rfl
  | cons g rest ih =>
    intro hnot acc
    have hg : f ≠ g := fun hh => hnot (hh ▸ List.mem_cons_self g rest)
    have hrest : f ∉ rest := fun hh => hnot (List.mem_cons_of_mem _ hh)
    rw [List.foldl_cons, ih hrest]
    unfold wildStep
    cases sc.get g with
    | ok v =>
      cases hv : v.truthy with
      | true =>
        simp only [hv, if_true]
        exact dget_dset_ne _ _ _ _ hg
      | false =>
        simp only [hv, Bool.false_eq_true, if_false]
    | error e => exact dget_dset_ne _ _ _ _ hg

theorem wild_fold_pm_char (sc : Scraper) (f : String) :
    ∀ (l : List String), l.Nodup → f ∈ l → ∀ acc : RecipeData × List (String × String),
      dget (l.foldl (wildStep sc) acc).2 f
        = (match sc.get f with
           | .ok v => if v.truthy then some "wild_mode" else dget acc.2 f
           | .error _ => some "NOT_FOUND") := by
  intro l
  induction l with
  | nil =>
    intro _ h
    cases h
  | cons g rest ih =>
    intro hnodup hmem acc
    rw [List.foldl_cons]
    by_cases hfg : f = g
    · subst hfg
      have hnotin : f ∉ rest := (List.nodup_cons.mp hnodup).1
      rw [wild_fold_frame sc f rest hnotin]
      unfold wildStep
      cases sc.get f with
      | ok v =>
        cases hv : v.truthy with
        | true => simp [hv, dget_dset_self]
        | false => simp [hv]
      | error e => simp [dget_dset_self]
    · have hmem2 : f ∈ rest := by
        cases hmem with
        | head => exact absurd rfl hfg
        | tail _ h => exact h
      rw [ih (List.nodup_cons.mp hnodup).2 hmem2]
      have hframe : dget (wildStep sc acc g).2 f = dget acc.2 f := by
        unfold wildStep
        cases sc.get g with
        | ok v =>
          cases hv : v.truthy with
          | true =>
            simp only [hv, if_true]
            exact dget_dset_ne _ _ _ _ hfg
          | false => simp only [hv, Bool.false_eq_true, if_false]
        | error e => exact dget_dset_ne _ _ _ _ hfg
      rw [hframe]

/-- The provenance map of a successful wild-mode record is the map the
field loop accumulated. -/
theorem wild_pmDict (sc : Scraper) (url ts : String) :
    ∀ rd, try_wild_mode_scraping (.ok sc) url ts = some rd →
      pmDict rd = (wildFieldNames.foldl (wildStep sc) ([], [])).2 := by
  intro rd hrd
  unfold try_wild_mode_scraping at hrd
  injection hrd with hrd
  subst hrd
  rw [pmDict_dset_other _ _ _ (by decide)]
  unfold pmDict
  simp [dget]

/-- Claim C8, counterexample: a wild-mode field extraction that returns
an empty (falsy) value without raising is NOT tagged `NOT_FOUND`; it is
left without any provenance entry at all.  Here `title` returns the
empty string and every other field raises. -/
theorem wild_falsy_untagged_counterexample :
    (try_wild_mode_scraping
        (.ok { host := "h", title := .ok (PyVal.str ""),
               ingredients := .error "e", instructions := .error "e",
               total_time := .error "e", yields := .error "e", image := .error "e",
               nutrients := .error "e", cuisine := .error "e", category := .error "e" })
        "u" "t").map
      (fun rd => (dget (pmDict rd) "title", dget (pmDict rd) "ingredients"))
      = some (none, some "NOT_FOUND") := rfl

/-- Claim C8 as amended: for every field attempted by
`try_wild_mode_scraping`, the provenance map tags the field `wild_mode`
exactly when the extraction returned a truthy value, tags it `NOT_FOUND`
exactly when the extraction raised, and leaves it untagged when the
extraction returned a falsy value without raising; no per-field
exception escapes the strategy (the strategy returns a record whenever
the scraper object was constructed). -/
theorem wild_mode_tagging_amended (sc : Scraper) (url ts f : String)
    (hf : f ∈ wildFieldNames) :
    (try_wild_mode_scraping (.ok sc) url ts).isSome = true ∧
    ∀ rd, try_wild_mode_scraping (.ok sc) url ts = some rd →
      ((∀ v, sc.get f = .ok v → v.truthy = true → dget (pmDict rd) f = some "wild_mode") ∧
       (∀ e, sc.get f = .error e → dget (pmDict rd) f = some "NOT_FOUND") ∧
       (∀ v, sc.get f = .ok v → v.truthy = false → dget (pmDict rd) f = none)) := by
  constructor
  · rfl
  · intro rd hrd
    have hpm := wild_pmDict sc url ts rd hrd
    have hchar := wild_fold_pm_char sc f wildFieldNames (by decide) hf ([], [])
    refine ⟨?_, ?_, ?_⟩
    · intro v hv ht
      rw [hpm, hchar, hv]
      simp [ht]
    · intro e he
      rw [hpm, hchar, he]
    · intro v hv ht
      rw [hpm, hchar, hv]
      simp [ht]
      rfl

theorem wild_mode_tagging_amended_witness :
    "title" ∈ wildFieldNames ∧
    (try_wild_mode_scraping
        (.ok { host := "h", title := .ok (PyVal.str "T"),
               ingredients := .error "e", instructions := .ok (PyVal.vlist []),
               total_time := .error "e", yields := .error "e", image := .error "e",
               nutrients := .error "e", cuisine := .error "e", category := .error "e" })
        "u" "t").map (fun rd => dget (pmDict rd) "title") = some (some "wild_mode") := by
  constructor
  · decide
  · cases hrd : try_wild_mode_scraping
        (.ok { host := "h", title := .ok (PyVal.str "T"),
               ingredients := .error "e", instructions := .ok (PyVal.vlist []),
               total_time := .error "e", yields := .error "e", image := .error "e",
               nutrients := .error "e", cuisine := .error "e", category := .error "e" })
        "u" "t" with
    | none => exact absurd hrd (by simp [try_wild_mode_scraping])
    | some rd =>
      have h := ((wild_mode_tagging_amended
        { host := "h", title := .ok (PyVal.str "T"),
          ingredients := .error "e", instructions := .ok (PyVal.vlist []),
          total_time := .error "e", yields := .error "e", image := .error "e",
          nutrients := .error "e", cuisine := .error "e", category := .error "e" }
        "u" "t" "title" (by decide)).2 rd hrd).1 (PyVal.str "T") rfl rfl
      simp [h]

/-! ## Presence implies provenance (claim C7) -/

/-- Every recipe content field present in the record has a provenance
entry. -/
def ProvInv (rd : RecipeData) : Prop :=
  ∀ f ∈ wildFieldNames, (dget rd f).isSome → (dget (pmDict rd) f).isSome

theorem dget_assemble_content (url host ts : String) (pm : List (String × String))
    (fields : RecipeData) (f : String) (hf : f ∈ wildFieldNames) :
    dget (assembleRecord url host ts pm fields) f = dget fields f := by
  obtain ⟨h1, h2, h3, h4, -, -⟩ := wildFieldNames_ne_special f hf
  unfold assembleRecord
  simp [dget, Ne.symm h1, Ne.symm h2, Ne.symm h3, Ne.symm h4]

theorem pmDict_assemble (url host ts : String) (pm : List (String × String))
    (fields : RecipeData) : pmDict (assembleRecord url host ts pm fields) = pm := by
  unfold assembleRecord pmDict
  simp [dget]

theorem provinv_tag_step (rd : RecipeData) (d : String) (hd : d ∈ wildFieldNames)
    (v : PyVal) (tag : String) (h : ProvInv rd) :
    ProvInv (pmTag (dset rd d v) d tag) := by
  intro f hf hsome
  have hdne : d ≠ "parsing_methods" := (wildFieldNames_ne_special d hd).2.2.1
  have hfne : f ≠ "parsing_methods" := (wildFieldNames_ne_special f hf).2.2.1
  rw [pmDict_pmTag, pmDict_dset_other _ _ _ hdne]
  by_cases hfd : f = d
  · subst hfd
    rw [dget_dset_self]
    rfl
  · apply dget_dset_isSome
    apply h f hf
    rw [dget_pmTag_ne _ _ _ _ hfne, dget_dset_ne _ _ _ _ hfd] at hsome
    exact hsome

theorem provinv_dset_cs (rd : RecipeData) (v : PyVal) (h : ProvInv rd) :
    ProvInv (dset rd "confidence_score" v) := by
  intro f hf hsome
  have h1 : f ≠ "confidence_score" := (wildFieldNames_ne_special f hf).2.2.2.2.1
  rw [dget_dset_ne _ _ _ _ h1] at hsome
  rw [pmDict_dset_other _ _ _ (by decide)]
  exact h f hf hsome

theorem mapSimpleField_provinv (item : List (String × PyVal)) (s d : String)
    (hd : d ∈ wildFieldNames) (rd : RecipeData) (h : ProvInv rd) :
    ProvInv (mapSimpleField item s d rd) := by
  unfold mapSimpleField
  cases dget item s with
  | none => exact h
  | some v => exact provinv_tag_step rd d hd v "json-ld" h

theorem mapInstructionsField_provinv (item : List (String × PyVal)) (rd rd2 : RecipeData)
    (h : ProvInv rd) (hok : mapInstructionsField item rd = .ok rd2) : ProvInv rd2 := by
  unfold mapInstructionsField at hok
  cases hitem : dget item "recipeInstructions" with
  | none =>
    simp only [hitem] at hok
    injection hok with hok
    subst hok
    exact h
  | some v =>
    simp only [hitem] at hok
    cases hiter : pyIter v with
    | error e =>
      simp only [hiter] at hok
      exact Except.noConfusion hok
    | ok elems =>
      simp only [hiter] at hok
      injection hok with hok
      subst hok
      exact provinv_tag_step rd "instructions" (by decide) _ "json-ld" h

theorem mapImageField_provinv (item : List (String × PyVal)) (rd rd2 : RecipeData)
    (h : ProvInv rd) (hok : mapImageField item rd = .ok rd2) : ProvInv rd2 := by
  unfold mapImageField at hok
  cases hitem : dget item "image" with
  | none =>
    simp only [hitem] at hok
    injection hok with hok
    subst hok
    exact h
  | some v =>
    simp only [hitem] at hok
    cases v with
    | vlist xs =>
      cases xs with
      | nil => cases hok
      | cons x rest =>
        injection hok with hok
        subst hok
        exact provinv_tag_step rd "image" (by decide) _ "json-ld" h
    | str s =>
      injection hok with hok
      subst hok
      exact provinv_tag_step rd "image" (by decide) _ "json-ld" h
    | num q =>
      injection hok with hok
      subst hok
      exact provinv_tag_step rd "image" (by decide) _ "json-ld" h
    | vdict m =>
      injection hok with hok
      subst hok
      exact provinv_tag_step rd "image" (by decide) _ "json-ld" h

theorem mapTotalTimeField_provinv (parseDur : PyVal → Except String ℚ)
    (item : List (String × PyVal)) (rd : RecipeData) (h : ProvInv rd) :
    ProvInv (mapTotalTimeField parseDur item rd) := by
  unfold mapTotalTimeField
  cases hitem : dget item "totalTime" with
  | none =>
    simp only [hitem]
    exact h
  | some v =>
    simp only [hitem]
    cases hpd : parseDur v with
    | ok secs =>
      simp only [hpd]
      exact provinv_tag_step rd "total_time" (by decide) _ "json-ld" h
    | error e =>
      simp only [hpd]
      exact h

theorem mapNutritionField_provinv (item : List (String × PyVal)) (rd rd2 : RecipeData)
    (h : ProvInv rd) (hok : mapNutritionField item rd = .ok rd2) : ProvInv rd2 := by
  unfold mapNutritionField at hok
  cases hitem : dget item "nutrition" with
  | none =>
    simp only [hitem] at hok
    injection hok with hok
    subst hok
    exact h
  | some v =>
    simp only [hitem] at hok
    cases v with
    | vdict m =>
      injection hok with hok
      subst hok
      exact provinv_tag_step rd "nutrients" (by decide) _ "json-ld" h
    | str s => cases hok
    | num q => cases hok
    | vlist xs => cases hok

theorem provinv_assemble (url host ts : String) (pm : List (String × String))
    (fields : RecipeData)
    (h : ∀ f, (dget fields f).isSome → (dget pm f).isSome) :
    ProvInv (assembleRecord url host ts pm fields) := by
  intro f hf hsome
  rw [dget_assemble_content _ _ _ _ _ _ hf] at hsome
  rw [pmDict_assemble]
  exact h f hsome

theorem standardRequiredStep_preserves (sc : Scraper)
    (acc : RecipeData × List (String × String) × List String) (g : String)
    (h : ∀ f, (dget acc.1 f).isSome → (dget acc.2.1 f).isSome) :
    ∀ f, (dget (standardRequiredStep sc acc g).1 f).isSome →
      (dget (standardRequiredStep sc acc g).2.1 f).isSome := by
  intro f
  unfold standardRequiredStep
  cases sc.get g with
  | ok v =>
    cases hv : v.truthy with
    | true =>
      simp only [hv, if_true]
      intro hf
      by_cases hfg : f = g
      · subst hfg
        rw [dget_dset_self]
        rfl
      · rw [dget_dset_ne _ _ _ _ hfg] at hf
        exact dget_dset_isSome _ _ _ _ (h f hf)
    | false =>
      simp only [hv, Bool.false_eq_true, if_false]
      exact h f
  | error e => exact h f

theorem standardOptionalStep_preserves (sc : Scraper)
    (acc : RecipeData × List (String × String)) (g : String)
    (h : ∀ f, (dget acc.1 f).isSome → (dget acc.2 f).isSome) :
    ∀ f, (dget (standardOptionalStep sc acc g).1 f).isSome →
      (dget (standardOptionalStep sc acc g).2 f).isSome := by
  intro f
  unfold standardOptionalStep
  cases sc.get g with
  | ok v =>
    cases hv : v.truthy with
    | true =>
      simp only [hv, if_true]
      intro hf
      by_cases hfg : f = g
      · subst hfg
        rw [dget_dset_self]
        rfl
      · rw [dget_dset_ne _ _ _ _ hfg] at hf
        exact dget_dset_isSome _ _ _ _ (h f hf)
    | false =>
      simp only [hv, Bool.false_eq_true, if_false]
      intro hf
      exact dget_dset_isSome _ _ _ _ (h f hf)
  | error e =>
    intro hf
    exact dget_dset_isSome _ _ _ _ (h f hf)

theorem wildStep_preserves (sc : Scraper)
    (acc : RecipeData × List (String × String)) (g : String)
    (h : ∀ f, (dget acc.1 f).isSome → (dget acc.2 f).isSome) :
    ∀ f, (dget (wildStep sc acc g).1 f).isSome →
      (dget (wildStep sc acc g).2 f).isSome := by
  intro f
  unfold wildStep
  cases sc.get g with
  | ok v =>
    cases hv : v.truthy with
    | true =>
      simp only [hv, if_true]
      intro hf
      by_cases hfg : f = g
      · subst hfg
        rw [dget_dset_self]
        rfl
      · rw [dget_dset_ne _ _ _ _ hfg] at hf
        exact dget_dset_isSome _ _ _ _ (h f hf)
    | false =>
      simp only [hv, Bool.false_eq_true, if_false]
      exact h f
  | error e =>
    intro hf
    exact dget_dset_isSome _ _ _ _ (h f hf)

theorem try_standard_provinv (sc : Scraper) (url ts : String) :
    ∀ rd, try_standard_scraping (.ok sc) url ts = some rd → ProvInv rd := by
  intro rd hrd
  simp only [try_standard_scraping] at hrd
  injection hrd with hrd
  subst hrd
  set req := requiredFieldNames.foldl (standardRequiredStep sc) ([], [], []) with hreq
  set opt := optionalFieldNames.foldl (standardOptionalStep sc) (req.1, req.2.1) with hopt
  have hP1 : ∀ f, (dget req.1 f).isSome → (dget req.2.1 f).isSome := by
    rw [hreq]
    exact foldl_preserves
      (fun acc => ∀ f, (dget acc.1 f).isSome → (dget acc.2.1 f).isSome)
      (standardRequiredStep sc)
      (fun b a hb => standardRequiredStep_preserves sc b a hb)
      requiredFieldNames ([], [], [])
      (by
        intro f hf
        simp [dget] at hf)
  have hP2 : ∀ f, (dget opt.1 f).isSome → (dget opt.2 f).isSome := by
    rw [hopt]
    exact foldl_preserves
      (fun acc => ∀ f, (dget acc.1 f).isSome → (dget acc.2 f).isSome)
      (standardOptionalStep sc)
      (fun b a hb => standardOptionalStep_preserves sc b a hb)
      optionalFieldNames (req.1, req.2.1) hP1
  have hbase : ProvInv (assembleRecord url sc.host ts opt.2 opt.1) :=
    provinv_assemble _ _ _ _ _ hP2
  have hcs : ProvInv (dset (assembleRecord url sc.host ts opt.2 opt.1) "confidence_score"
      (PyVal.num (calculate_confidence_score (assembleRecord url sc.host ts opt.2 opt.1)))) :=
    provinv_dset_cs _ _ hbase
  by_cases hm : req.2.2.isEmpty
  · simp only [hm, if_true]
    exact hcs
  · simp only [hm, Bool.false_eq_true, if_false]
    intro f hf hsome
    have h1 : f ≠ "missing_required" := (wildFieldNames_ne_special f hf).2.2.2.2.2
    rw [dget_dset_ne _ _ _ _ h1] at hsome
    rw [pmDict_dset_other _ _ _ (by decide)]
    exact hcs f hf hsome

theorem try_wild_provinv (sc : Scraper) (url ts : String) :
    ∀ rd, try_wild_mode_scraping (.ok sc) url ts = some rd → ProvInv rd := by
  intro rd hrd
  simp only [try_wild_mode_scraping] at hrd
  injection hrd with hrd
  subst hrd
  set acc := wildFieldNames.foldl (wildStep sc) ([], []) with hacc
  have hP : ∀ f, (dget acc.1 f).isSome → (dget acc.2 f).isSome := by
    rw [hacc]
    exact foldl_preserves
      (fun b => ∀ f, (dget b.1 f).isSome → (dget b.2 f).isSome)
      (wildStep sc)
      (fun b a hb => wildStep_preserves sc b a hb)
      wildFieldNames ([], [])
      (by
        intro f hf
        simp [dget] at hf)
  exact provinv_dset_cs _ _ (provinv_assemble _ _ _ _ _ hP)

theorem process_recipe_schema_provinv (parseDur : PyVal → Except String ℚ)
    (item : List (String × PyVal)) (url netloc ts : String) :
    ∀ rd, process_recipe_schema parseDur item url netloc ts = .ok rd → ProvInv rd := by
  intro rd hok
  simp only [process_recipe_schema] at hok
  have h0 : ProvInv (assembleRecord url netloc ts [] []) :=
    provinv_assemble _ _ _ _ _ (by
      intro f hf
      simp [dget] at hf)
  have h1 := mapSimpleField_provinv item "name" "title" (by decide) _ h0
  have h2 := mapSimpleField_provinv item "recipeIngredient" "ingredients" (by decide) _ h1
  cases h3 : mapInstructionsField item
      (mapSimpleField item "recipeIngredient" "ingredients"
        (mapSimpleField item "name" "title" (assembleRecord url netloc ts [] []))) with
  | error e =>
    simp only [h3] at hok
    exact Except.noConfusion hok
  | ok rd3 =>
    simp only [h3] at hok
    have hrd3 := mapInstructionsField_provinv item _ rd3 h2 h3
    cases h4 : mapImageField item rd3 with
    | error e =>
      simp only [h4] at hok
      exact Except.noConfusion hok
    | ok rd4 =>
      simp only [h4] at hok
      have hrd4 := mapImageField_provinv item rd3 rd4 hrd3 h4
      have h5 := mapTotalTimeField_provinv parseDur item rd4 hrd4
      have h6 := mapSimpleField_provinv item "recipeYield" "yields" (by decide) _ h5
      have h7 := mapSimpleField_provinv item "recipeCuisine" "cuisine" (by decide) _ h6
      have h8 := mapSimpleField_provinv item "recipeCategory" "category" (by decide) _ h7
      cases h9 : mapNutritionField item
          (mapSimpleField item "recipeCategory" "category"
            (mapSimpleField item "recipeCuisine" "cuisine"
              (mapSimpleField item "recipeYield" "yields"
                (mapTotalTimeField parseDur item rd4)))) with
      | error e =>
        simp only [h9] at hok
        exact Except.noConfusion hok
      | ok rd9 =>
        simp only [h9] at hok
        injection hok with hok
        subst hok
        exact provinv_dset_cs _ _ (mapNutritionField_provinv item _ rd9 h8 h9)

/-- Claim C7, counterexample: the `url` field is present in every record
`process_recipe_schema` returns, yet it never has a provenance entry
(the same holds for `host`); the invariant claimed for every present
field, including `url` and `host`, fails. -/
theorem url_without_provenance_counterexample :
    (process_recipe_schema (fun _ => .error "unused") [("name", PyVal.str "T")]
        "https://e.com/r" "e.com" "t").map
      (fun rd => ((dget rd "url").isSome, (dget (pmDict rd) "url").isSome))
      = .ok (true, false) := rfl

/-- Claim C7 as amended: for every record returned by
`try_standard_scraping`, `try_wild_mode_scraping` or
`process_recipe_schema`, every recipe content field (title, ingredients,
instructions, total_time, yields, image, nutrients, cuisine, category)
present in the record has an entry in its `parsing_methods` map; the
bookkeeping keys `url`, `host`, `parse_timestamp`, `confidence_score`
and `missing_required` are present without any provenance entry. -/
theorem strategy_records_content_provenance
    (scrapeRes : Except String Scraper) (url ts netloc : String)
    (parseDur : PyVal → Except String ℚ) (item : List (String × PyVal)) :
    (∀ rd, try_standard_scraping scrapeRes url ts = some rd → ProvInv rd) ∧
    (∀ rd, try_wild_mode_scraping scrapeRes url ts = some rd → ProvInv rd) ∧
    (∀ rd, process_recipe_schema parseDur item url netloc ts = .ok rd → ProvInv rd) := by
  refine ⟨?_, ?_, process_recipe_schema_provinv parseDur item url netloc ts⟩
  · cases scrapeRes with
    | error e =>
      intro rd hrd
      cases hrd
    | ok sc => exact try_standard_provinv sc url ts
  · cases scrapeRes with
    | error e =>
      intro rd hrd
      cases hrd
    | ok sc => exact try_wild_provinv sc url ts

theorem strategy_records_content_provenance_witness :
    (try_standard_scraping
        (.ok { host := "h", title := .ok (PyVal.str "T"),
               ingredients := .error "e", instructions := .error "e",
               total_time := .error "e", yields := .error "e", image := .error "e",
               nutrients := .error "e", cuisine := .error "e", category := .error "e" })
        "u" "t").map
      (fun rd => ((dget rd "title").isSome, (dget (pmDict rd) "title").isSome))
      = some (true, true) := by
  cases hrd : try_standard_scraping
      (.ok { host := "h", title := .ok (PyVal.str "T"),
             ingredients := .error "e", instructions := .error "e",
             total_time := .error "e", yields := .error "e", image := .error "e",
             nutrients := .error "e", cuisine := .error "e", category := .error "e" })
      "u" "t" with
  | none => exact absurd hrd (by simp [try_standard_scraping])
  | some rd =>
    have hpresent : (dget rd "title").isSome = true := by
      have h2 : some rd = try_standard_scraping
          (.ok { host := "h", title := .ok (PyVal.str "T"),
                 ingredients := .error "e", instructions := .error "e",
                 total_time := .error "e", yields := .error "e", image := .error "e",
                 nutrients := .error "e", cuisine := .error "e", category := .error "e" })
          "u" "t" := hrd.symm
      rw [show try_standard_scraping
          (.ok { host := "h", title := .ok (PyVal.str "T"),
                 ingredients := .error "e", instructions := .error "e",
                 total_time := .error "e", yields := .error "e", image := .error "e",
                 nutrients := .error "e", cuisine := .error "e", category := .error "e" })
          "u" "t" = some [("url", PyVal.str "u"), ("host", PyVal.str "h"),
            ("parsing_methods", PyVal.vdict [("title", "schema.org"),
              ("total_time", "ERROR"), ("yields", "ERROR"), ("image", "ERROR"),
              ("nutrients", "ERROR"), ("cuisine", "ERROR"), ("category", "ERROR")]),
            ("parse_timestamp", PyVal.str "t"), ("title", PyVal.str "T"),
            ("confidence_score", PyVal.num (1/5)),
            ("missing_required", PyVal.vlist [PyVal.str "ingredients",
              PyVal.str "instructions"])] from rfl] at h2
      injection h2 with h2
      rw [h2]
      rfl
    have hpm := (strategy_records_content_provenance
      (.ok { host := "h", title := .ok (PyVal.str "T"),
             ingredients := .error "e", instructions := .error "e",
             total_time := .error "e", yields := .error "e", image := .error "e",
             nutrients := .error "e", cuisine := .error "e", category := .error "e" })
      "u" "t" "n" (fun _ => .error "unused") []).1 rd hrd "title" (by decide) hpresent
    simp [hpresent, hpm]

/-! ## The orchestrator `scrape_recipe` (lines 585-689) -/

/-- The strategy and network behaviour `scrape_recipe` composes, as
oracles: each call either raises, returns no data, or returns a record.
The real strategies catch internally and never raise, but the
orchestrator guards against raising callees with its outer handler, so
the oracle type allows raising. -/
structure Strategies where
  s1 : Except String (Option RecipeData)
  s2 : Except String (Option RecipeData)
  s3 : Except String (Option RecipeData)
  fetchHtml : Except String String
  s4 : String → Except String (Option RecipeData)

/-- Which fallback layers a run of the orchestrator invoked: the
direct JSON-LD extraction, the wild-mode scrape, the raw HTML fetch and
the model extractor. -/
structure CallLog where
  s2Called : Bool
  s3Called : Bool
  fetchCalled : Bool
  gptCalled : Bool

/-- Outcome of one stage inside the try block: an early return, an
exception to be caught at the orchestrator boundary, or the updated
`(best_data, best_score)` state. -/
inductive Step (α : Type) : Type where
  | ret (r : RecipeData)
  | exc (e : String)
  | cont (a : α)

/-- Read of `recipe_data["confidence_score"]` as a number: a missing key
raises a KeyError and a non-numeric value makes the following threshold
comparison raise a TypeError. -/
def getScore (rd : RecipeData) : Except String ℚ :=
  match dget rd "confidence_score" with
  | some (.num q) => .ok q
  | some _ => .error "TypeError: confidence_score is not a number"
  | none => .error "KeyError: confidence_score"

/-- The record built by the orchestrator-level except handler (lines
681-689). -/
def exceptionRecord (url ts e : String) : RecipeData :=
  [("error", PyVal.str e), ("url", PyVal.str url),
   ("parse_timestamp", PyVal.str ts),
   ("parsing_methods", PyVal.vdict [("all_fields", "ERROR")]),
   ("confidence_score", PyVal.num 0)]

/-- The record returned when no strategy produced any data (lines
675-679); note it carries no provenance map. -/
def allFailedRecord (url : String) : RecipeData :=
  [("error", PyVal.str "All extraction methods failed"),
   ("url", PyVal.str url), ("confidence_score", PyVal.num 0)]

/-- Assignment `best_data["parsing_methods"][field] = tag` (lines 630 and 657):
raises a KeyError when the record has no provenance key and a TypeError
when its value is not a dict. -/
def setTag (bd : RecipeData) (f tag : String) : Except String RecipeData :=
  match dget bd "parsing_methods" with
  | some (.vdict m) => .ok (dset bd "parsing_methods" (PyVal.vdict (dset m f tag)))
  | some _ => .error "TypeError: parsing_methods does not support item assignment"
  | none => .error "KeyError: parsing_methods"

/-- One iteration of the gap-filling merge loops (lines 627-630 and
654-657): a field of the source record is written into `best_data` only
when it is absent or falsy there, and is then tagged.  The merge
mutates `best_data` in place, so when a tag assignment raises, the
fields filled so far stay filled; the state carries the partially
updated record together with the pending exception, if any. -/
def mergeStep (tag : String) (st : RecipeData × Option String) (fv : String × PyVal) :
    RecipeData × Option String :=
  match st.2 with
  | some _ => st
  | none =>
    if (dget st.1 fv.1).all (fun v => !v.truthy) then
      let bd1 := dset st.1 fv.1 fv.2
      match setTag bd1 fv.1 tag with
      | .ok bd2 => (bd2, none)
      | .error e => (bd1, some e)
    else (st.1, none)

/-- The whole gap-filling merge loop. -/
def mergeGapFill (bd0 src : RecipeData) (tag : String) : RecipeData × Option String :=
  src.foldl (mergeStep tag) (bd0, none)

/-- Stage 1 (lines 593-603): adopt the standard-scrape result; return
immediately on a score of at least the HIGH threshold 0.8. -/
def step1 (rd? : Option RecipeData) : Step (Option RecipeData × ℚ) :=
  match rd? with
  | some rd =>
    if rd.isEmpty then .cont (none, 0)
    else
      match getScore rd with
      | .error e => .exc e
      | .ok score =>
        if score ≥ 4/5 then .ret rd
        else .cont (some rd, score)
  | none => .cont (none, 0)

/-- Stage 2 (lines 605-618), reached only under the guard
`not best_data or best_score < 0.8`: return immediately on a score of
at least 0.8, otherwise replace the best when strictly better. -/
def step2 (res : Except String (Option RecipeData)) (best : Option RecipeData)
    (bestScore : ℚ) : Step (Option RecipeData × ℚ) :=
  match res with
  | .error e => .exc e
  | .ok jd? =>
    match jd? with
    | some jd =>
      if jd.isEmpty then .cont (best, bestScore)
      else
        match getScore jd with
        | .error e => .exc e
        | .ok score =>
          if score ≥ 4/5 then .ret jd
          else if best.isNone ∨ score > bestScore then .cont (some jd, score)
          else .cont (best, bestScore)
    | none => .cont (best, bestScore)

/-- Stage 3 (lines 620-640).  When a previous best exists the wild
result is merged by gap filling, the confidence is recomputed on the
record, and the MEDIUM threshold 0.6 is checked; the local `best_score`
variable is NOT refreshed in this branch.  With no previous best the
wild record is adopted outright together with its own score. -/
def step3 (res : Except String (Option RecipeData)) (best : Option RecipeData)
    (bestScore : ℚ) : Step (Option RecipeData × ℚ) :=
  match res with
  | .error e => .exc e
  | .ok wd? =>
    match wd? with
    | some wd =>
      if wd.isEmpty then .cont (best, bestScore)
      else
        match best with
        | some bd =>
          match mergeGapFill bd wd "wild_mode" with
          | (_, some e) => .exc e
          | (bd1, none) =>
            let bd2 := dset bd1 "confidence_score"
              (PyVal.num (calculate_confidence_score bd1))
            if calculate_confidence_score bd1 ≥ 3/5 then .ret bd2
            else .cont (some bd2, bestScore)
        | none =>
          match getScore wd with
          | .error e => .exc e
          | .ok s => .cont (some wd, s)
    | none => .cont (best, bestScore)

/-- Stage 4 (lines 642-666), reached only under the guard
`not best_data or best_score < 0.4`.  The whole body sits in its own
try/except, so any raise inside it leaves the current best (with any
partial merge mutations) in place and falls through.  Returns the new
best and whether the model extractor was invoked. -/
def step4 (fetch : Except String String)
    (s4 : String → Except String (Option RecipeData))
    (best : Option RecipeData) (url : String) : Option RecipeData × Bool :=
  match fetch with
  | .error _ => (best, false)
  | .ok html =>
    match s4 html with
    | .error _ => (best, true)
    | .ok llm? =>
      match llm? with
      | some llm =>
        if llm.isEmpty then (best, true)
        else
          match best with
          | some bd =>
            match mergeGapFill bd llm "llm" with
            | (bd1, some _) => (some bd1, true)
            | (bd1, none) =>
              (some (dset bd1 "confidence_score"
                (PyVal.num (calculate_confidence_score bd1))), true)
          | none =>
            let bd := dset llm "url" (PyVal.str url)
            (some (dset bd "confidence_score"
              (PyVal.num (calculate_confidence_score bd))), true)
      | none => (best, true)

/-- The terminal return (lines 668-679): attach the low-confidence
warning below 0.4, or fall back to the all-methods-failed record when
no best data exists. -/
def finalStep (best : Option RecipeData) (url : String) : Except String RecipeData :=
  match best with
  | some bd =>
    if bd.isEmpty then .ok (allFailedRecord url)
    else
      match getScore bd with
      | .error e => .error e
      | .ok s =>
        if s < 2/5 then
          .ok (dset bd "warning" (PyVal.str "Low confidence in extracted data"))
        else .ok bd
  | none => .ok (allFailedRecord url)

/-- Stages 3 to terminal, with the stage-2 flag of the call log given. -/
def runFromStep3 (st : Strategies) (url ts : String) (best : Option RecipeData)
    (bestScore : ℚ) (s2c : Bool) : RecipeData × CallLog :=
  match step3 st.s3 best bestScore with
  | .ret r => (r, ⟨s2c, true, false, false⟩)
  | .exc e => (exceptionRecord url ts e, ⟨s2c, true, false, false⟩)
  | .cont (best1, bestScore1) =>
    if best1.isNone ∨ bestScore1 < 2/5 then
      let p := step4 st.fetchHtml st.s4 best1 url
      match finalStep p.1 url with
      | .ok r => (r, ⟨s2c, true, true, p.2⟩)
      | .error e => (exceptionRecord url ts e, ⟨s2c, true, true, p.2⟩)
    else
      match finalStep best1 url with
      | .ok r => (r, ⟨s2c, true, false, false⟩)
      | .error e => (exceptionRecord url ts e, ⟨s2c, true, false, false⟩)

/-- Stage-2 guard and onward. -/
def runFromStep2 (st : Strategies) (url ts : String) (best : Option RecipeData)
    (bestScore : ℚ) : RecipeData × CallLog :=
  if best.isNone ∨ bestScore < 4/5 then
    match step2 st.s2 best bestScore with
    | .ret r => (r, ⟨true, false, false, false⟩)
    | .exc e => (exceptionRecord url ts e, ⟨true, false, false, false⟩)
    | .cont bs => runFromStep3 st url ts bs.1 bs.2 true
  else runFromStep3 st url ts best bestScore false

/-- Orchestrator `scrape_recipe` (lines 585-689): the four-stage cascade inside a
try/except that converts any raise into the exception record.  The
second component records which fallback layers the run invoked. -/
def scrape_recipe (st : Strategies) (url ts : String) : RecipeData × CallLog :=
  match st.s1 with
  | .error e => (exceptionRecord url ts e, ⟨false, false, false, false⟩)
  | .ok rd? =>
    match step1 rd? with
    | .ret r => (r, ⟨false, false, false, false⟩)
    | .exc e => (exceptionRecord url ts e, ⟨false, false, false, false⟩)
    | .cont bs => runFromStep2 st url ts bs.1 bs.2

/-! ## Early exit on high stage-1 confidence (claim C2) -/

/-- Claim C2: when stage 1 returns a record whose computed confidence
score is at least 0.8, `scrape_recipe` returns exactly that record —
unchanged, so in particular with no warning attached — and neither the
direct JSON-LD extraction, nor the wild-mode scrape, nor the HTML fetch,
nor the model extractor is invoked in that run. -/
theorem high_confidence_stage1_early_return (st : Strategies) (url ts : String)
    (rd : RecipeData) (h1 : st.s1 = .ok (some rd))
    (hcs : dget rd "confidence_score" = some (PyVal.num (calculate_confidence_score rd)))
    (hscore : calculate_confidence_score rd ≥ 4/5) :
    scrape_recipe st url ts = (rd, ⟨false, false, false, false⟩) := by
  have hne : rd.isEmpty = false := by
    cases rd with
    | nil => simp [dget] at hcs
    | cons a l => rfl
  unfold scrape_recipe
  rw [h1]
  unfold step1
  simp only [hne, Bool.false_eq_true, if_false]
  unfold getScore
  rw [hcs]
  simp only
  rw [if_pos hscore]

def rdC2 : RecipeData :=
  [("url", PyVal.str "u"), ("host", PyVal.str "h"),
   ("parsing_methods", PyVal.vdict
      [("title", "schema.org"), ("ingredients", "schema.org"),
       ("instructions", "schema.org"), ("image", "schema.org"),
       ("total_time", "schema.org")]),
   ("parse_timestamp", PyVal.str "t"), ("title", PyVal.str "T"),
   ("ingredients", PyVal.vlist [PyVal.str "i"]),
   ("instructions", PyVal.vlist [PyVal.str "s"]),
   ("image", PyVal.str "im"), ("total_time", PyVal.num 30),
   ("confidence_score", PyVal.num (85/100))]

def stC2 : Strategies :=
  { s1 := .ok (some rdC2), s2 := .error "stage 2 must not run",
    s3 := .error "stage 3 must not run", fetchHtml := .error "fetch must not run",
    s4 := fun _ => .error "stage 4 must not run" }

theorem high_confidence_stage1_early_return_witness :
    scrape_recipe stC2 "u" "t" = (rdC2, ⟨false, false, false, false⟩) :=
  high_confidence_stage1_early_return stC2 "u" "t" rdC2 rfl
    (by rw [show calculate_confidence_score rdC2 = 85/100 from by decide]; rfl)
    (by rw [show calculate_confidence_score rdC2 = 85/100 from by decide]; norm_num)

/-! ## The stage-4 gate reads a stale score (claim C4) -/

def rdC4best : RecipeData :=
  [("url", PyVal.str "u"), ("host", PyVal.str "h"),
   ("parsing_methods", PyVal.vdict [("title", "schema.org")]),
   ("parse_timestamp", PyVal.str "t"), ("title", PyVal.str "T"),
   ("confidence_score", PyVal.num (20/100))]

def rdC4wild : RecipeData :=
  [("url", PyVal.str "u"), ("host", PyVal.str "h"),
   ("parsing_methods", PyVal.vdict
      [("ingredients", "wild_mode"), ("instructions", "wild_mode")]),
   ("parse_timestamp", PyVal.str "t2"),
   ("ingredients", PyVal.vlist [PyVal.str "i"]),
   ("instructions", PyVal.vlist [PyVal.str "s"]),
   ("confidence_score", PyVal.num (35/100))]

def stC4 : Strategies :=
  { s1 := .ok (some rdC4best), s2 := .ok none, s3 := .ok (some rdC4wild),
    fetchHtml := .ok "html", s4 := fun _ => .ok none }

/-- Claim C4, divergence evidence: stage 1 scores 0.2, stage 3 merges the
wild record and recomputes the record score to 0.55, which is at least
the LOW threshold 0.4 — yet the model stage IS invoked, because the
stage-4 gate reads the local `best_score` variable, which is not
refreshed after the stage-3 merge (it still holds 0.2). -/
theorem stage4_invoked_despite_medium_score :
    (scrape_recipe stC4 "u" "t").2.gptCalled = true ∧
    dget (scrape_recipe stC4 "u" "t").1 "confidence_score"
      = some (PyVal.num (55/100)) ∧
    ¬((55 : ℚ)/100 < 2/5) := by
  refine ⟨rfl, rfl, by norm_num⟩

/-! ## The gap-filling merge never overwrites (claim C3) -/

/-- The provenance key holds a non-empty dict (true of every populated
best record the orchestrator carries). -/
def pmGood (bd : RecipeData) : Prop :=
  ∃ m, dget bd "parsing_methods" = some (PyVal.vdict m) ∧ m ≠ []

theorem eq_fst_none {α β : Type} (p : α × Option β) (h : p.2 = none) :
    p = (p.1, none) := by
  rw [← h]

theorem mergeStep_frame_ne (tag : String) (bd : RecipeData) (fv : String × PyVal)
    (f : String) (hne : fv.1 ≠ f) (hfpm : f ≠ "parsing_methods") (h : pmGood bd) :
    (mergeStep tag (bd, none) fv).2 = none ∧
    dget (mergeStep tag (bd, none) fv).1 f = dget bd f ∧
    dget (pmDict (mergeStep tag (bd, none) fv).1) f = dget (pmDict bd) f ∧
    pmGood (mergeStep tag (bd, none) fv).1 := by
  obtain ⟨m, hm, hmne⟩ := h
  by_cases hfill : (dget bd fv.1).all (fun v => !v.truthy) = true
  · have hpmne : fv.1 ≠ "parsing_methods" := by
      intro hc
      rw [hc, hm] at hfill
      simp [PyVal.truthy, List.isEmpty_iff] at hfill
      exact hmne hfill
    have hst : setTag (dset bd fv.1 fv.2) fv.1 tag
        = .ok (dset (dset bd fv.1 fv.2) "parsing_methods"
            (PyVal.vdict (dset m fv.1 tag))) := by
      unfold setTag
      rw [dget_dset_ne _ _ _ _ (Ne.symm hpmne), hm]
    have hstep : mergeStep tag (bd, none) fv
        = (dset (dset bd fv.1 fv.2) "parsing_methods"
            (PyVal.vdict (dset m fv.1 tag)), none) := by
      simp only [mergeStep]
      rw [if_pos hfill, hst]
    rw [hstep]
    refine ⟨rfl, ?_, ?_, ?_⟩
    · rw [dget_dset_ne _ _ _ _ hfpm, dget_dset_ne _ _ _ _ (Ne.symm hne)]
    · have hp : pmDict (dset (dset bd fv.1 fv.2) "parsing_methods"
          (PyVal.vdict (dset m fv.1 tag))) = dset m fv.1 tag := by
        unfold pmDict
        rw [dget_dset_self]
      rw [hp, dget_dset_ne _ _ _ _ (fun hc => hne hc.symm)]
      unfold pmDict
      rw [hm]
    · exact ⟨dset m fv.1 tag, dget_dset_self _ _ _, dset_ne_nil _ _ _⟩
  · have hstep : mergeStep tag (bd, none) fv = (bd, none) := by
      simp only [mergeStep]
      rw [if_neg hfill]
    rw [hstep]
    exact ⟨rfl, rfl, rfl, ⟨m, hm, hmne⟩⟩

theorem mergeFold_keeps_truthy (tag f : String) (v : PyVal)
    (ht : v.truthy = true) (hfpm : f ≠ "parsing_methods") :
    ∀ (src : List (String × PyVal)) (bd : RecipeData), pmGood bd → dget bd f = some v →
      dget (src.foldl (mergeStep tag) (bd, none)).1 f = some v ∧
      dget (pmDict (src.foldl (mergeStep tag) (bd, none)).1) f = dget (pmDict bd) f := by
  intro src
  induction src with
  | nil =>
    intro bd _ hf
    exact ⟨hf, rfl⟩
  | cons fv rest ih =>
    intro bd hpm hf
    rw [List.foldl_cons]
    by_cases hfv : fv.1 = f
    · have hcond : ¬((dget bd fv.1).all (fun x => !x.truthy) = true) := by
        rw [hfv, hf]
        simp [ht]
      have hskip : mergeStep tag (bd, none) fv = (bd, none) := by
        simp only [mergeStep]
        rw [if_neg hcond]
      rw [hskip]
      exact ih bd hpm hf
    · obtain ⟨h2, h3, h4, h5⟩ := mergeStep_frame_ne tag bd fv f hfv hfpm hpm
      have heta := eq_fst_none (mergeStep tag (bd, none) fv) h2
      rw [heta]
      obtain ⟨ha, hb⟩ := ih _ h5 (by rw [h3]; exact hf)
      exact ⟨ha, by rw [hb, h4]⟩

theorem mergeFold_frame_out (tag f : String) (hfpm : f ≠ "parsing_methods") :
    ∀ (src : List (String × PyVal)), (∀ p ∈ src, p.1 ≠ f) →
      ∀ bd : RecipeData, pmGood bd →
      dget (src.foldl (mergeStep tag) (bd, none)).1 f = dget bd f ∧
      dget (pmDict (src.foldl (mergeStep tag) (bd, none)).1) f = dget (pmDict bd) f := by
  intro src
  induction src with
  | nil =>
    intro _ bd _
    exact ⟨rfl, rfl⟩
  | cons fv rest ih =>
    intro hout bd hpm
    rw [List.foldl_cons]
    obtain ⟨h2, h3, h4, h5⟩ := mergeStep_frame_ne tag bd fv f
      (hout fv (List.mem_cons_self _ _)) hfpm hpm
    have heta := eq_fst_none (mergeStep tag (bd, none) fv) h2
    rw [heta]
    obtain ⟨ha, hb⟩ := ih (fun p hp => hout p (List.mem_cons_of_mem _ hp)) _ h5
    exact ⟨by rw [ha, h3], by rw [hb, h4]⟩

theorem mergeFold_fills (tag f : String) (w : PyVal) (hfpm : f ≠ "parsing_methods") :
    ∀ (src : List (String × PyVal)), (src.map Prod.fst).Nodup → dget src f = some w →
      ∀ bd : RecipeData, pmGood bd → (dget bd f).all (fun x => !x.truthy) = true →
      dget (src.foldl (mergeStep tag) (bd, none)).1 f = some w ∧
      dget (pmDict (src.foldl (mergeStep tag) (bd, none)).1) f = some tag := by
  intro src
  induction src with
  | nil =>
    intro _ hsrc
    simp [dget] at hsrc
  | cons fv rest ih =>
    intro hnodup hsrc bd hpm hfalsy
    rw [List.foldl_cons]
    obtain ⟨m, hm, hmne⟩ := hpm
    by_cases hfv : fv.1 = f
    · have hw : fv.2 = w := by
        obtain ⟨k, u⟩ := fv
        simp only [dget, hfv] at hsrc
        rw [if_pos hfv] at hsrc
        injection hsrc
      have hpmne : fv.1 ≠ "parsing_methods" := by
        rw [hfv]
        exact hfpm
      have hfill : (dget bd fv.1).all (fun x => !x.truthy) = true := by
        rw [hfv]
        exact hfalsy
      have hst : setTag (dset bd fv.1 fv.2) fv.1 tag
          = .ok (dset (dset bd fv.1 fv.2) "parsing_methods"
              (PyVal.vdict (dset m fv.1 tag))) := by
        unfold setTag
        rw [dget_dset_ne _ _ _ _ (Ne.symm hpmne), hm]
      have hstep : mergeStep tag (bd, none) fv
          = (dset (dset bd fv.1 fv.2) "parsing_methods"
              (PyVal.vdict (dset m fv.1 tag)), none) := by
        simp only [mergeStep]
        rw [if_pos hfill, hst]
      rw [hstep]
      have hrest : ∀ p ∈ rest, p.1 ≠ f := by
        intro p hp hc
        have hnotin := (List.nodup_cons.mp hnodup).1
        apply hnotin
        rw [hfv, ← hc]
        exact List.mem_map_of_mem Prod.fst hp
      have hpm2 : pmGood (dset (dset bd fv.1 fv.2) "parsing_methods"
          (PyVal.vdict (dset m fv.1 tag))) :=
        ⟨dset m fv.1 tag, dget_dset_self _ _ _, dset_ne_nil _ _ _⟩
      obtain ⟨ha, hb⟩ := mergeFold_frame_out tag f hfpm rest hrest _ hpm2
      constructor
      · rw [ha, dget_dset_ne _ _ _ _ hfpm]
        rw [hfv, hw]
        exact dget_dset_self _ _ _
      · rw [hb]
        have hp : pmDict (dset (dset bd fv.1 fv.2) "parsing_methods"
            (PyVal.vdict (dset m fv.1 tag))) = dset m fv.1 tag := by
          unfold pmDict
          rw [dget_dset_self]
        rw [hp, hfv]
        exact dget_dset_self _ _ _
    · obtain ⟨h2, h3, h4, h5⟩ := mergeStep_frame_ne tag bd fv f hfv hfpm ⟨m, hm, hmne⟩
      have heta := eq_fst_none (mergeStep tag (bd, none) fv) h2
      rw [heta]
      have hsrc2 : dget rest f = some w := by
        obtain ⟨k, u⟩ := fv
        simp only [dget] at hsrc
        rw [if_neg hfv] at hsrc
        exact hsrc
      obtain ⟨ha, hb⟩ := ih (List.nodup_cons.mp hnodup).2 hsrc2 _ h5
        (by rw [h3]; exact hfalsy)
      exact ⟨ha, hb⟩

/-- Claim C3: the stage-3 gap-filling merge never overwrites a field
that is present and truthy in `best_data` and leaves the provenance
entry of that field unchanged; only fields absent or falsy in `best_data`
are filled, from the wild record, and tagged `wild_mode`.  The
`parsing_methods` bookkeeping key itself is excluded from the first
part: tagging the newly filled fields extends that dict in place. -/
theorem gap_filling_merge_never_overwrites (best wild : RecipeData)
    (pmB : List (String × String))
    (hpm : dget best "parsing_methods" = some (PyVal.vdict pmB)) (hpmne : pmB ≠ [])
    (hnodup : (wild.map Prod.fst).Nodup) :
    (∀ f v, f ≠ "parsing_methods" → dget best f = some v → v.truthy = true →
       dget (mergeGapFill best wild "wild_mode").1 f = some v ∧
       dget (pmDict (mergeGapFill best wild "wild_mode").1) f = dget (pmDict best) f) ∧
    (∀ f w, dget wild f = some w → (dget best f).all (fun x => !x.truthy) = true →
       dget (mergeGapFill best wild "wild_mode").1 f = some w ∧
       dget (pmDict (mergeGapFill best wild "wild_mode").1) f = some "wild_mode") := by
  constructor
  · intro f v hfpm hf ht
    exact mergeFold_keeps_truthy "wild_mode" f v ht hfpm wild best ⟨pmB, hpm, hpmne⟩ hf
  · intro f w hw hfalsy
    have hfpm : f ≠ "parsing_methods" := by
      intro hc
      rw [hc, hpm] at hfalsy
      simp [PyVal.truthy, List.isEmpty_iff] at hfalsy
      exact hpmne hfalsy
    exact mergeFold_fills "wild_mode" f w hfpm wild hnodup hw best ⟨pmB, hpm, hpmne⟩ hfalsy

theorem gap_filling_merge_never_overwrites_witness :
    dget (mergeGapFill
      [("title", PyVal.str "A"),
       ("parsing_methods", PyVal.vdict [("title", "schema.org")])]
      [("title", PyVal.str "B"), ("ingredients", PyVal.vlist [PyVal.str "x"])]
      "wild_mode").1 "title" = some (PyVal.str "A") ∧
    dget (pmDict (mergeGapFill
      [("title", PyVal.str "A"),
       ("parsing_methods", PyVal.vdict [("title", "schema.org")])]
      [("title", PyVal.str "B"), ("ingredients", PyVal.vlist [PyVal.str "x"])]
      "wild_mode").1) "title" = some "schema.org" ∧
    dget (mergeGapFill
      [("title", PyVal.str "A"),
       ("parsing_methods", PyVal.vdict [("title", "schema.org")])]
      [("title", PyVal.str "B"), ("ingredients", PyVal.vlist [PyVal.str "x"])]
      "wild_mode").1 "ingredients" = some (PyVal.vlist [PyVal.str "x"]) ∧
    dget (pmDict (mergeGapFill
      [("title", PyVal.str "A"),
       ("parsing_methods", PyVal.vdict [("title", "schema.org")])]
      [("title", PyVal.str "B"), ("ingredients", PyVal.vlist [PyVal.str "x"])]
      "wild_mode").1) "ingredients" = some "wild_mode" := by
  have h := gap_filling_merge_never_overwrites
    [("title", PyVal.str "A"),
     ("parsing_methods", PyVal.vdict [("title", "schema.org")])]
    [("title", PyVal.str "B"), ("ingredients", PyVal.vlist [PyVal.str "x"])]
    [("title", "schema.org")] rfl (by simp) (by simp)
  obtain ⟨hkeep, hfill⟩ := h
  obtain ⟨ha, hb⟩ := hkeep "title" (PyVal.str "A") (by simp) rfl rfl
  obtain ⟨hc, hd⟩ := hfill "ingredients" (PyVal.vlist [PyVal.str "x"]) rfl rfl
  exact ⟨ha, by rw [hb]; rfl, hc, hd⟩

/-! ## The orchestrator never raises (claim C5) -/

/-- A strategy call that throws or produces no data. -/
def producesNoData (r : Except String (Option RecipeData)) : Prop :=
  (∃ e, r = .error e) ∨ r = .ok none

/-- Claim C5: `scrape_recipe` is total — the embedding returns a record
on every path, the except handler converting any raise into a record —
and when every strategy throws or produces no data the result is a
terminal failure record: `error` is set and `confidence_score` is 0.
When no stage raised at all, the result is exactly the
all-methods-failed record with `error = "All extraction methods
failed"` (and no provenance map); when stage 1 raised, it is the
except-handler record with provenance `all_fields = ERROR`. -/
theorem orchestrator_never_raises (st : Strategies) (url ts : String)
    (h1 : producesNoData st.s1) (h2 : producesNoData st.s2)
    (h3 : producesNoData st.s3) (h4 : ∀ html, producesNoData (st.s4 html)) :
    ((dget (scrape_recipe st url ts).1 "error").isSome = true ∧
     dget (scrape_recipe st url ts).1 "confidence_score" = some (PyVal.num 0)) ∧
    (st.s1 = .ok none → st.s2 = .ok none → st.s3 = .ok none →
      (scrape_recipe st url ts).1 = allFailedRecord url) ∧
    (∀ e, st.s1 = .error e → (scrape_recipe st url ts).1 = exceptionRecord url ts e) := by
  obtain ⟨s1v, s2v, s3v, fetchv, s4v⟩ := st
  simp only at h1 h2 h3 h4 ⊢
  rcases h1 with ⟨e1, he1⟩ | he1
  all_goals subst he1
  · -- stage 1 raises
    exact ⟨⟨rfl, rfl⟩, fun hc _ _ => Except.noConfusion hc,
      fun e he => by injection he with he; subst he; rfl⟩
  · rcases h2 with ⟨e2, he2⟩ | he2
    all_goals subst he2
    · -- stage 2 raises
      exact ⟨⟨rfl, rfl⟩, fun _ hc _ => Except.noConfusion hc,
        fun e he => Except.noConfusion he⟩
    · rcases h3 with ⟨e3, he3⟩ | he3
      all_goals subst he3
      · -- stage 3 raises
        exact ⟨⟨rfl, rfl⟩, fun _ _ hc => Except.noConfusion hc,
          fun e he => Except.noConfusion he⟩
      · -- no strategy produced data
        cases fetchv with
        | error efetch =>
          exact ⟨⟨rfl, rfl⟩, fun _ _ _ => rfl, fun e he => Except.noConfusion he⟩
        | ok html =>
          have hres : scrape_recipe ⟨.ok none, .ok none, .ok none, .ok html, s4v⟩ url ts
              = (allFailedRecord url, ⟨true, true, true, true⟩) := by
            unfold scrape_recipe runFromStep2 runFromStep3 step4
            dsimp only
            rcases h4 html with ⟨e4, he4⟩ | he4
            · rw [he4]
              rfl
            · rw [he4]
              rfl
          rw [hres]
          exact ⟨⟨rfl, rfl⟩, fun _ _ _ => rfl, fun e he => Except.noConfusion he⟩

def stC5 : Strategies :=
  { s1 := .error "boom", s2 := .ok none, s3 := .error "wild failed",
    fetchHtml := .ok "html", s4 := fun _ => .ok none }

theorem orchestrator_never_raises_witness :
    (dget (scrape_recipe stC5 "u" "t").1 "error").isSome = true ∧
    dget (scrape_recipe stC5 "u" "t").1 "confidence_score" = some (PyVal.num 0) ∧
    (scrape_recipe stC5 "u" "t").1 = exceptionRecord "u" "t" "boom" := by
  have h := orchestrator_never_raises stC5 "u" "t"
    (Or.inl ⟨"boom", rfl⟩) (Or.inr rfl) (Or.inl ⟨"wild failed", rfl⟩)
    (fun _ => Or.inr rfl)
  exact ⟨h.1.1, h.1.2, h.2.2 "boom" rfl⟩

/-! ## Warning iff low confidence (claim C6) -/

/-- The shape every best record carried by the orchestrator keeps:
non-empty, a numeric confidence score, a dict-valued provenance map and
no warning key. -/
def MergeInv (bd : RecipeData) : Prop :=
  bd ≠ [] ∧ (∃ q, dget bd "confidence_score" = some (PyVal.num q)) ∧
  (∃ m, dget bd "parsing_methods" = some (PyVal.vdict m)) ∧
  dget bd "warning" = none

/-- The returned record carries the low-confidence warning exactly when
its stored confidence score is below the LOW threshold 0.4. -/
def GoodResult (r : RecipeData) : Prop :=
  ∃ q, dget r "confidence_score" = some (PyVal.num q) ∧
    (q < 2/5 → dget r "warning" = some (PyVal.str "Low confidence in extracted data")) ∧
    (¬(q < 2/5) → dget r "warning" = none)

/-- A well-formed strategy record: the best-record shape plus unique
keys, as Python dicts guarantee.  Every record the real strategies
build satisfies this. -/
def wfRecord (d : RecipeData) : Prop :=
  MergeInv d ∧ (d.map Prod.fst).Nodup

/-- All records an oracle returns are well formed. -/
def wfStrategy (r : Except String (Option RecipeData)) : Prop :=
  ∀ d, r = .ok (some d) → wfRecord d

/-- The oracle produced a (truthy) record. -/
def producesData (r : Except String (Option RecipeData)) : Prop :=
  ∃ d, r = .ok (some d) ∧ d ≠ []

theorem dget_of_mem_nodup {α : Type} {d : List (String × α)} {k : String} {v : α}
    (hnd : (d.map Prod.fst).Nodup) (hmem : (k, v) ∈ d) : dget d k = some v := by
  induction d with
  | nil => cases hmem
  | cons p rest ih =>
    obtain ⟨k1, v1⟩ := p
    rcases List.mem_cons.mp hmem with heq | hmem2
    · injection heq with e1 e2
      subst e1; subst e2
      simp [dget]
    · have hk : k1 ≠ k := by
        intro hc
        subst hc
        have : k1 ∈ rest.map Prod.fst := List.mem_map_of_mem Prod.fst hmem2
        exact (List.nodup_cons.mp hnd).1 this
      simp only [dget, hk, if_false]
      exact ih (List.nodup_cons.mp hnd).2 hmem2

theorem wfRecord_sideconds (d : RecipeData) (h : wfRecord d) :
    ∀ fv ∈ d, (fv.1 = "parsing_methods" → ∃ m, fv.2 = PyVal.vdict m) ∧
      (fv.1 = "confidence_score" → ∃ q, fv.2 = PyVal.num q) ∧ fv.1 ≠ "warning" := by
  obtain ⟨⟨hne, ⟨q, hcs⟩, ⟨m, hm⟩, hw⟩, hnd⟩ := h
  intro fv hfv
  have hdg : dget d fv.1 = some fv.2 := dget_of_mem_nodup hnd hfv
  refine ⟨?_, ?_, ?_⟩
  · intro hp
    rw [hp, hm] at hdg
    injection hdg with hdg
    exact ⟨m, hdg.symm⟩
  · intro hp
    rw [hp, hcs] at hdg
    injection hdg with hdg
    exact ⟨q, hdg.symm⟩
  · intro hp
    rw [hp, hw] at hdg
    exact Option.noConfusion hdg

theorem mergeStep_wf (tag : String) (bd : RecipeData) (fv : String × PyVal)
    (hbd : MergeInv bd)
    (hpmv : fv.1 = "parsing_methods" → ∃ m, fv.2 = PyVal.vdict m)
    (hcsv : fv.1 = "confidence_score" → ∃ q, fv.2 = PyVal.num q)
    (hwv : fv.1 ≠ "warning") :
    (mergeStep tag (bd, none) fv).2 = none ∧ MergeInv (mergeStep tag (bd, none) fv).1 := by
  obtain ⟨hne, ⟨qcs, hcs⟩, ⟨m, hm⟩, hw⟩ := hbd
  by_cases hfill : (dget bd fv.1).all (fun x => !x.truthy) = true
  · have hpm1 : ∃ m1, dget (dset bd fv.1 fv.2) "parsing_methods"
        = some (PyVal.vdict m1) := by
      by_cases hp : fv.1 = "parsing_methods"
      · obtain ⟨m2, hm2⟩ := hpmv hp
        refine ⟨m2, ?_⟩
        rw [hm2, ← hp]
        exact dget_dset_self _ _ _
      · refine ⟨m, ?_⟩
        rw [dget_dset_ne _ _ _ _ (Ne.symm hp)]
        exact hm
    obtain ⟨m1, hm1⟩ := hpm1
    have hst : setTag (dset bd fv.1 fv.2) fv.1 tag
        = .ok (dset (dset bd fv.1 fv.2) "parsing_methods"
            (PyVal.vdict (dset m1 fv.1 tag))) := by
      unfold setTag
      rw [hm1]
    have hstep : mergeStep tag (bd, none) fv
        = (dset (dset bd fv.1 fv.2) "parsing_methods"
            (PyVal.vdict (dset m1 fv.1 tag)), none) := by
      simp only [mergeStep]
      rw [if_pos hfill, hst]
    rw [hstep]
    refine ⟨rfl, dset_ne_nil _ _ _, ?_, ?_, ?_⟩
    · by_cases hc : fv.1 = "confidence_score"
      · obtain ⟨q2, hq2⟩ := hcsv hc
        refine ⟨q2, ?_⟩
        rw [dget_dset_ne _ _ _ _ (by decide), hq2, ← hc]
        exact dget_dset_self _ _ _
      · refine ⟨qcs, ?_⟩
        rw [dget_dset_ne _ _ _ _ (by decide), dget_dset_ne _ _ _ _ (Ne.symm hc)]
        exact hcs
    · exact ⟨dset m1 fv.1 tag, dget_dset_self _ _ _⟩
    · rw [dget_dset_ne _ _ _ _ (by decide), dget_dset_ne _ _ _ _ (Ne.symm hwv)]
      exact hw
  · have hstep : mergeStep tag (bd, none) fv = (bd, none) := by
      simp only [mergeStep]
      rw [if_neg hfill]
    rw [hstep]
    exact ⟨rfl, hne, ⟨qcs, hcs⟩, ⟨m, hm⟩, hw⟩

theorem mergeGapFill_wf (tag : String) :
    ∀ (src : RecipeData),
      (∀ fv ∈ src, (fv.1 = "parsing_methods" → ∃ m, fv.2 = PyVal.vdict m) ∧
        (fv.1 = "confidence_score" → ∃ q, fv.2 = PyVal.num q) ∧ fv.1 ≠ "warning") →
      ∀ bd, MergeInv bd →
      (mergeGapFill bd src tag).2 = none ∧ MergeInv (mergeGapFill bd src tag).1 := by
  intro src
  induction src with
  | nil =>
    intro _ bd h
    exact ⟨rfl, h⟩
  | cons fv rest ih =>
    intro hsrc bd h
    unfold mergeGapFill
    rw [List.foldl_cons]
    obtain ⟨hs1, hs2, hs3⟩ := hsrc fv (List.mem_cons_self _ _)
    obtain ⟨h2, h5⟩ := mergeStep_wf tag bd fv h hs1 hs2 hs3
    rw [eq_fst_none _ h2]
    exact ih (fun p hp => hsrc p (List.mem_cons_of_mem _ hp)) _ h5

theorem finalStep_good (best : Option RecipeData) (url : String) (bd : RecipeData)
    (hb : best = some bd) (hbd : MergeInv bd) :
    ∃ r, finalStep best url = .ok r ∧ GoodResult r := by
  subst hb
  obtain ⟨hne, ⟨q, hcs⟩, -, hw⟩ := hbd
  have hne2 : bd.isEmpty = false := by
    cases bd with
    | nil => exact absurd rfl hne
    | cons a l => rfl
  unfold finalStep
  dsimp only
  rw [hne2]
  simp only [Bool.false_eq_true, if_false]
  unfold getScore
  rw [hcs]
  simp only
  by_cases hq : q < 2/5
  · rw [if_pos hq]
    refine ⟨_, rfl, q, ?_, ?_, ?_⟩
    · rw [dget_dset_ne _ _ _ _ (by decide)]
      exact hcs
    · intro _
      exact dget_dset_self _ _ _
    · intro hc
      exact absurd hq hc
  · rw [if_neg hq]
    exact ⟨bd, rfl, q, hcs, fun hc => absurd hc hq, fun _ => hw⟩

/-- Any populated best record keeps the best-record shape. -/
def GoodBest (best : Option RecipeData) : Prop :=
  ∀ bd, best = some bd → MergeInv bd

theorem step1_classify (rd? : Option RecipeData)
    (hwf : ∀ d, rd? = some d → wfRecord d) :
    (∃ r, step1 rd? = .ret r ∧ GoodResult r) ∨
    (∃ b s, step1 rd? = .cont (b, s) ∧ GoodBest b ∧
      ((∃ d, rd? = some d ∧ d ≠ []) → b.isSome = true)) := by
  cases rd? with
  | none =>
    right
    refine ⟨none, 0, rfl, fun bd h => Option.noConfusion h, ?_⟩
    rintro ⟨d, hd, -⟩
    exact Option.noConfusion hd
  | some rd =>
    by_cases hemp : rd.isEmpty
    · right
      refine ⟨none, 0, ?_, fun bd h => Option.noConfusion h, ?_⟩
      · unfold step1
        dsimp only
        rw [if_pos hemp]
      · rintro ⟨d, hd, hdne⟩
        injection hd with hd
        subst hd
        exact absurd (List.isEmpty_iff.mp hemp) hdne
    · obtain ⟨⟨hne, ⟨q, hcs⟩, hpm, hw⟩, hnd⟩ := hwf rd rfl
      have hgs : getScore rd = .ok q := by
        unfold getScore
        rw [hcs]
      by_cases hscore : q ≥ 4/5
      · left
        refine ⟨rd, ?_, q, hcs, fun hlt => False.elim (by linarith), fun _ => hw⟩
        unfold step1
        dsimp only
        rw [if_neg hemp, hgs]
        dsimp only
        rw [if_pos hscore]
      · right
        refine ⟨some rd, q, ?_, ?_, fun _ => rfl⟩
        · unfold step1
          dsimp only
          rw [if_neg hemp, hgs]
          dsimp only
          rw [if_neg hscore]
        · intro bd h
          injection h with h
          subst h
          exact ⟨hne, ⟨q, hcs⟩, hpm, hw⟩

theorem step2_classify (res : Except String (Option RecipeData))
    (best : Option RecipeData) (bestScore : ℚ)
    (hnr : ∀ e, res ≠ .error e) (hwf : wfStrategy res) (hgb : GoodBest best) :
    (∃ r, step2 res best bestScore = .ret r ∧ GoodResult r) ∨
    (∃ b s, step2 res best bestScore = .cont (b, s) ∧ GoodBest b ∧
      (best.isSome = true → b.isSome = true) ∧
      (producesData res → b.isSome = true)) := by
  cases res with
  | error e => exact absurd rfl (hnr e)
  | ok jd? =>
    cases jd? with
    | none =>
      right
      refine ⟨best, bestScore, rfl, hgb, fun h => h, ?_⟩
      rintro ⟨d, hd, -⟩
      injection hd with hd
      exact Option.noConfusion hd
    | some jd =>
      by_cases hemp : jd.isEmpty
      · right
        refine ⟨best, bestScore, ?_, hgb, fun h => h, ?_⟩
        · unfold step2
          dsimp only
          rw [if_pos hemp]
        · rintro ⟨d, hd, hdne⟩
          injection hd with hd
          injection hd with hd
          subst hd
          exact absurd (List.isEmpty_iff.mp hemp) hdne
      · obtain ⟨⟨hne, ⟨q, hcs⟩, hpm, hw⟩, hnd⟩ := hwf jd rfl
        have hgs : getScore jd = .ok q := by
          unfold getScore
          rw [hcs]
        by_cases hscore : q ≥ 4/5
        · left
          refine ⟨jd, ?_, q, hcs, fun hlt => False.elim (by linarith), fun _ => hw⟩
          unfold step2
          dsimp only
          rw [if_neg hemp, hgs]
          dsimp only
          rw [if_pos hscore]
        · by_cases hrepl : best.isNone = true ∨ q > bestScore
          · right
            refine ⟨some jd, q, ?_, ?_, fun _ => rfl, fun _ => rfl⟩
            · unfold step2
              dsimp only
              rw [if_neg hemp, hgs]
              dsimp only
              rw [if_neg hscore, if_pos hrepl]
            · intro bd h
              injection h with h
              subst h
              exact ⟨hne, ⟨q, hcs⟩, hpm, hw⟩
          · right
            refine ⟨best, bestScore, ?_, hgb, fun h => h, fun _ => ?_⟩
            · unfold step2
              dsimp only
              rw [if_neg hemp, hgs]
              dsimp only
              rw [if_neg hscore, if_neg hrepl]
            · have hns : ¬ best.isNone = true := fun hc => hrepl (Or.inl hc)
              cases best with
              | none => exact absurd rfl hns
              | some b2 => rfl

theorem step3_classify (res : Except String (Option RecipeData))
    (best : Option RecipeData) (bestScore : ℚ)
    (hnr : ∀ e, res ≠ .error e) (hwf : wfStrategy res) (hgb : GoodBest best) :
    (∃ r, step3 res best bestScore = .ret r ∧ GoodResult r) ∨
    (∃ b s, step3 res best bestScore = .cont (b, s) ∧ GoodBest b ∧
      (best.isSome = true → b.isSome = true) ∧
      (producesData res → b.isSome = true)) := by
  cases res with
  | error e => exact absurd rfl (hnr e)
  | ok wd? =>
    cases wd? with
    | none =>
      right
      refine ⟨best, bestScore, rfl, hgb, fun h => h, ?_⟩
      rintro ⟨d, hd, -⟩
      injection hd with hd
      exact Option.noConfusion hd
    | some wd =>
      by_cases hemp : wd.isEmpty
      · right
        refine ⟨best, bestScore, ?_, hgb, fun h => h, ?_⟩
        · unfold step3
          dsimp only
          rw [if_pos hemp]
        · rintro ⟨d, hd, hdne⟩
          injection hd with hd
          injection hd with hd
          subst hd
          exact absurd (List.isEmpty_iff.mp hemp) hdne
      · cases best with
        | some bd =>
          have hmi := hgb bd rfl
          have hside := wfRecord_sideconds wd (hwf wd rfl)
          obtain ⟨hm2, hmi1⟩ := mergeGapFill_wf "wild_mode" wd hside bd hmi
          have heta := eq_fst_none _ hm2
          have hmi2 : MergeInv (dset (mergeGapFill bd wd "wild_mode").1
              "confidence_score"
              (PyVal.num (calculate_confidence_score (mergeGapFill bd wd "wild_mode").1))) := by
            obtain ⟨hne1, -, ⟨m1, hm1⟩, hw1⟩ := hmi1
            refine ⟨dset_ne_nil _ _ _, ⟨_, dget_dset_self _ _ _⟩, ⟨m1, ?_⟩, ?_⟩
            · rw [dget_dset_ne _ _ _ _ (by decide)]
              exact hm1
            · rw [dget_dset_ne _ _ _ _ (by decide)]
              exact hw1
          by_cases hmed : calculate_confidence_score (mergeGapFill bd wd "wild_mode").1 ≥ 3/5
          · left
            refine ⟨dset (mergeGapFill bd wd "wild_mode").1 "confidence_score"
              (PyVal.num (calculate_confidence_score (mergeGapFill bd wd "wild_mode").1)),
              ?_, ?_⟩
            · unfold step3
              dsimp only
              rw [if_neg hemp]
              rw [heta]
              dsimp only
              rw [if_pos hmed]
            · obtain ⟨-, -, -, hw2⟩ := hmi2
              exact ⟨calculate_confidence_score (mergeGapFill bd wd "wild_mode").1,
                dget_dset_self _ _ _,
                fun hlt => False.elim (by linarith), fun _ => hw2⟩
          · right
            refine ⟨some (dset (mergeGapFill bd wd "wild_mode").1 "confidence_score"
                (PyVal.num (calculate_confidence_score (mergeGapFill bd wd "wild_mode").1))),
              bestScore, ?_, ?_, fun _ => rfl, fun _ => rfl⟩
            · unfold step3
              dsimp only
              rw [if_neg hemp]
              rw [heta]
              dsimp only
              rw [if_neg hmed]
            · intro bd2 h
              injection h with h
              subst h
              exact hmi2
        | none =>
          obtain ⟨⟨hne, ⟨q, hcs⟩, hpm, hw⟩, hnd⟩ := hwf wd rfl
          have hgs : getScore wd = .ok q := by
            unfold getScore
            rw [hcs]
          right
          refine ⟨some wd, q, ?_, ?_, fun _ => rfl, fun _ => rfl⟩
          · unfold step3
            dsimp only
            rw [if_neg hemp, hgs]
          · intro bd h
            injection h with h
            subst h
            exact ⟨hne, ⟨q, hcs⟩, hpm, hw⟩

theorem step4_classify (fetch : Except String String)
    (s4f : String → Except String (Option RecipeData))
    (best : Option RecipeData) (url : String)
    (hwf : ∀ html, wfStrategy (s4f html)) (hgb : GoodBest best) :
    GoodBest (step4 fetch s4f best url).1 ∧
    (best.isSome = true → (step4 fetch s4f best url).1.isSome = true) ∧
    (∀ html, fetch = .ok html → producesData (s4f html) →
      (step4 fetch s4f best url).1.isSome = true) := by
  cases fetch with
  | error e =>
    refine ⟨hgb, fun h => h, ?_⟩
    intro html hc
    exact absurd hc (fun hcc => Except.noConfusion hcc)
  | ok html0 =>
    cases hs4 : s4f html0 with
    | error e =>
      have hstep : step4 (.ok html0) s4f best url = (best, true) := by
        unfold step4
        dsimp only
        rw [hs4]
      rw [hstep]
      refine ⟨hgb, fun h => h, ?_⟩
      intro html hh hprod
      injection hh with hh
      subst hh
      obtain ⟨d, hd, -⟩ := hprod
      rw [hs4] at hd
      exact Except.noConfusion hd
    | ok llm? =>
      cases llm? with
      | none =>
        have hstep : step4 (.ok html0) s4f best url = (best, true) := by
          unfold step4
          dsimp only
          rw [hs4]
        rw [hstep]
        refine ⟨hgb, fun h => h, ?_⟩
        intro html hh hprod
        injection hh with hh
        subst hh
        obtain ⟨d, hd, -⟩ := hprod
        rw [hs4] at hd
        injection hd with hd
        exact Option.noConfusion hd
      | some llm =>
        by_cases hemp : llm.isEmpty
        · have hstep : step4 (.ok html0) s4f best url = (best, true) := by
            unfold step4
            dsimp only
            rw [hs4]
            dsimp only
            rw [if_pos hemp]
          rw [hstep]
          refine ⟨hgb, fun h => h, ?_⟩
          intro html hh hprod
          injection hh with hh
          subst hh
          obtain ⟨d, hd, hdne⟩ := hprod
          rw [hs4] at hd
          injection hd with hd
          injection hd with hd
          subst hd
          exact absurd (List.isEmpty_iff.mp hemp) hdne
        · cases best with
          | some bd =>
            have hmi := hgb bd rfl
            have hside := wfRecord_sideconds llm (hwf html0 llm hs4)
            obtain ⟨hm2, hmi1⟩ := mergeGapFill_wf "llm" llm hside bd hmi
            have heta := eq_fst_none _ hm2
            have hstep : step4 (.ok html0) s4f (some bd) url
                = (some (dset (mergeGapFill bd llm "llm").1 "confidence_score"
                    (PyVal.num (calculate_confidence_score (mergeGapFill bd llm "llm").1))),
                   true) := by
              unfold step4
              dsimp only
              rw [hs4]
              dsimp only
              rw [if_neg hemp]
              rw [heta]
            rw [hstep]
            refine ⟨?_, fun _ => rfl, fun _ _ _ => rfl⟩
            intro bd2 h
            injection h with h
            subst h
            obtain ⟨hne1, -, ⟨m1, hm1⟩, hw1⟩ := hmi1
            refine ⟨dset_ne_nil _ _ _, ⟨_, dget_dset_self _ _ _⟩, ⟨m1, ?_⟩, ?_⟩
            · rw [dget_dset_ne _ _ _ _ (by decide)]
              exact hm1
            · rw [dget_dset_ne _ _ _ _ (by decide)]
              exact hw1
          | none =>
            obtain ⟨⟨hne, hcs, ⟨m, hm⟩, hw⟩, hnd⟩ := hwf html0 llm hs4
            have hstep : step4 (.ok html0) s4f none url
                = (some (dset (dset llm "url" (PyVal.str url)) "confidence_score"
                    (PyVal.num (calculate_confidence_score
                      (dset llm "url" (PyVal.str url))))), true) := by
              unfold step4
              dsimp only
              rw [hs4]
              dsimp only
              rw [if_neg hemp]
            rw [hstep]
            refine ⟨?_, fun _ => rfl, fun _ _ _ => rfl⟩
            intro bd2 h
            injection h with h
            subst h
            refine ⟨dset_ne_nil _ _ _, ⟨_, dget_dset_self _ _ _⟩, ⟨m, ?_⟩, ?_⟩
            · rw [dget_dset_ne _ _ _ _ (by decide), dget_dset_ne _ _ _ _ (by decide)]
              exact hm
            · rw [dget_dset_ne _ _ _ _ (by decide), dget_dset_ne _ _ _ _ (by decide)]
              exact hw

theorem run3_good (st : Strategies) (url ts : String) (b : Option RecipeData)
    (s : ℚ) (s2c : Bool)
    (hnr3 : ∀ e, st.s3 ≠ .error e) (h3 : wfStrategy st.s3)
    (h4 : ∀ html, wfStrategy (st.s4 html)) (hgb : GoodBest b)
    (hsome : b.isSome = true ∨ producesData st.s3 ∨
      (∃ html, st.fetchHtml = .ok html ∧ producesData (st.s4 html))) :
    GoodResult (runFromStep3 st url ts b s s2c).1 := by
  rcases step3_classify st.s3 b s hnr3 h3 hgb with
    ⟨r, hr, hgood⟩ | ⟨b3, s3, hc, hgb3, hpres3, hprod3⟩
  · unfold runFromStep3
    rw [hr]
    exact hgood
  · unfold runFromStep3
    rw [hc]
    dsimp only
    have hsome3 : b3.isSome = true ∨
        (∃ html, st.fetchHtml = .ok html ∧ producesData (st.s4 html)) := by
      rcases hsome with hb | hp3 | hp4
      · exact Or.inl (hpres3 hb)
      · exact Or.inl (hprod3 hp3)
      · exact Or.inr hp4
    by_cases hguard : b3.isNone = true ∨ s3 < 2/5
    · rw [if_pos hguard]
      obtain ⟨hgb4, hpres4, hprod4⟩ := step4_classify st.fetchHtml st.s4 b3 url h4 hgb3
      have hsome4 : (step4 st.fetchHtml st.s4 b3 url).1.isSome = true := by
        rcases hsome3 with hb | ⟨html, hf, hp⟩
        · exact hpres4 hb
        · exact hprod4 html hf hp
      obtain ⟨bd4, hbd4⟩ := Option.isSome_iff_exists.mp hsome4
      obtain ⟨r, hfin, hgood⟩ := finalStep_good _ url bd4 hbd4 (hgb4 bd4 hbd4)
      rw [hfin]
      exact hgood
    · rw [if_neg hguard]
      have hb3some : b3.isSome = true := by
        cases b3 with
        | none => exact absurd (Or.inl rfl) hguard
        | some _ => rfl
      obtain ⟨bd3, hbd3⟩ := Option.isSome_iff_exists.mp hb3some
      obtain ⟨r, hfin, hgood⟩ := finalStep_good _ url bd3 hbd3 (hgb3 bd3 hbd3)
      rw [hfin]
      exact hgood

theorem run2_good (st : Strategies) (url ts : String) (b : Option RecipeData) (s : ℚ)
    (hnr2 : ∀ e, st.s2 ≠ .error e) (hnr3 : ∀ e, st.s3 ≠ .error e)
    (h2 : wfStrategy st.s2) (h3 : wfStrategy st.s3)
    (h4 : ∀ html, wfStrategy (st.s4 html)) (hgb : GoodBest b)
    (hsome : b.isSome = true ∨ producesData st.s2 ∨ producesData st.s3 ∨
      (∃ html, st.fetchHtml = .ok html ∧ producesData (st.s4 html))) :
    GoodResult (runFromStep2 st url ts b s).1 := by
  unfold runFromStep2
  by_cases hguard : b.isNone = true ∨ s < 4/5
  · rw [if_pos hguard]
    rcases step2_classify st.s2 b s hnr2 h2 hgb with
      ⟨r, hr, hgood⟩ | ⟨b2, s2, hc, hgb2, hpres2, hprod2⟩
    · rw [hr]
      exact hgood
    · rw [hc]
      dsimp only
      apply run3_good st url ts b2 s2 true hnr3 h3 h4 hgb2
      rcases hsome with hb | hp2 | hp3 | hp4
      · exact Or.inl (hpres2 hb)
      · exact Or.inl (hprod2 hp2)
      · exact Or.inr (Or.inl hp3)
      · exact Or.inr (Or.inr hp4)
  · rw [if_neg hguard]
    apply run3_good st url ts b s false hnr3 h3 h4 hgb
    have hbsome : b.isSome = true := by
      cases b with
      | none => exact absurd (Or.inl rfl) hguard
      | some _ => rfl
    exact Or.inl hbsome

/-- Claim C6: in every run where at least one strategy produced data —
with the strategies returning well-formed records, as the real ones do,
and the scraper-level strategies not raising, as the real ones never do
(they catch internally) — the returned record carries
`warning = "Low confidence in extracted data"` exactly when its stored
confidence score is below the LOW threshold 0.4, and carries no warning
key otherwise. -/
theorem warning_iff_low_confidence (st : Strategies) (url ts : String)
    (hnr1 : ∀ e, st.s1 ≠ .error e) (hnr2 : ∀ e, st.s2 ≠ .error e)
    (hnr3 : ∀ e, st.s3 ≠ .error e)
    (h1 : wfStrategy st.s1) (h2 : wfStrategy st.s2) (h3 : wfStrategy st.s3)
    (h4 : ∀ html, wfStrategy (st.s4 html))
    (hsome : producesData st.s1 ∨ producesData st.s2 ∨ producesData st.s3 ∨
      (∃ html, st.fetchHtml = .ok html ∧ producesData (st.s4 html))) :
    GoodResult (scrape_recipe st url ts).1 := by
  cases hs1 : st.s1 with
  | error e => exact absurd hs1 (hnr1 e)
  | ok rd? =>
    unfold scrape_recipe
    rw [hs1]
    dsimp only
    rcases step1_classify rd? (fun d hd => h1 d (by rw [hs1, hd])) with
      ⟨r, hr, hgood⟩ | ⟨b, s, hc, hgb, hprom1⟩
    · rw [hr]
      exact hgood
    · rw [hc]
      dsimp only
      apply run2_good st url ts b s hnr2 hnr3 h2 h3 h4 hgb
      rcases hsome with hp1 | hp2 | hp3 | hp4
      · obtain ⟨d, hd, hdne⟩ := hp1
        rw [hs1] at hd
        injection hd with hd
        exact Or.inl (hprom1 ⟨d, hd, hdne⟩)
      · exact Or.inr (Or.inl hp2)
      · exact Or.inr (Or.inr (Or.inl hp3))
      · exact Or.inr (Or.inr (Or.inr hp4))

def stC6 : Strategies :=
  { s1 := .ok (some rdC4best), s2 := .ok none, s3 := .ok none,
    fetchHtml := .error "network down", s4 := fun _ => .ok none }

theorem warning_iff_low_confidence_witness :
    GoodResult (scrape_recipe stC6 "u" "t").1 ∧
    dget (scrape_recipe stC6 "u" "t").1 "warning"
      = some (PyVal.str "Low confidence in extracted data") ∧
    dget (scrape_recipe stC6 "u" "t").1 "confidence_score"
      = some (PyVal.num (20/100)) := by
  refine ⟨?_, rfl, rfl⟩
  apply warning_iff_low_confidence stC6 "u" "t"
    (fun e h => Except.noConfusion h) (fun e h => Except.noConfusion h)
    (fun e h => Except.noConfusion h)
  · intro d hd
    injection hd with hd
    injection hd with hd
    subst hd
    refine ⟨⟨by simp [rdC4best], ⟨20/100, rfl⟩, ⟨[("title", "schema.org")], rfl⟩, rfl⟩,
      by simp [rdC4best]⟩
  · intro d hd
    injection hd with hd
    exact Option.noConfusion hd
  · intro d hd
    injection hd with hd
    exact Option.noConfusion hd
  · intro html d hd
    injection hd with hd
    exact Option.noConfusion hd
  · exact Or.inl ⟨rdC4best, rfl, by simp [rdC4best]⟩

end RecipeImporter
